import Mathlib

/-!
# nRF52 WAV player: double-buffered I2S playback

A shallow embedding of `src/main.c` (the frame encoder `prepare_tx_data`, the
I2S event handler `data_handler` and the initialisation part of `play_wav`),
followed by theorems about it.

Modelling conventions
* `uint32_t` values are natural numbers; every operation that can wrap is
  written with an explicit `% UINT32_MOD`.
* `AUDIO16` (declared in `audio16.h`) is a parameter: a list of bytes.  A read
  outside the list is undefined behaviour in C and makes the embedded function
  return `none`.
* A pointer to a transmit buffer is `Option (Fin 2)`: `none` is `NULL`, and
  `some b` points at `m_buffer_tx[b]`.
* The driver calls (`nrf_drv_i2s_start`, `nrf_drv_i2s_next_buffers_set`) are
  recorded as the value returned next to the new state: the buffer handed over.
-/

namespace WavPlayer

/-! ## Data model -/

/-- One `unsigned char`. -/
abbrev Byte := Fin 256

/-- Number of words per I2S data block (`#define I2S_DATA_BLOCK_WORDS 2048`). -/
def I2S_DATA_BLOCK_WORDS : Nat := 2048

/-- Modulus of `uint32_t` arithmetic. -/
def UINT32_MOD : Nat := 2 ^ 32

/-- Modelled from the spec: the status bit "next buffer needed" that the
handler tests.  Its declaration lives in the driver header (not part of the
sources); the nRF5 SDK defines it as bit 0. -/
def NRFX_I2S_STATUS_NEXT_BUFFERS_NEEDED : Nat := 1

/-- One transmit buffer: `uint32_t [I2S_DATA_BLOCK_WORDS]`. -/
abbrev Block := { l : List Nat // l.length = I2S_DATA_BLOCK_WORDS }

/-- Assignment `p_block[i] = w`. -/
def Block.write (p_block : Block) (i w : Nat) : Block :=
  ⟨p_block.val.set i w, by rw [List.length_set]; exact p_block.property⟩

/-- Value of `p_block[i]` (0 outside the array, never used there). -/
def Block.read (p_block : Block) (i : Nat) : Nat :=
  p_block.val.getD i 0

/-- A block of silence. -/
def Block.zero : Block :=
  ⟨List.replicate I2S_DATA_BLOCK_WORDS 0, by simp⟩

/-- The global variables of `main.c`. -/
structure State where
  m_buffer_tx : Fin 2 → Block
  mp_block_to_fill : Option (Fin 2)
  sound_index : Nat
  current_wav_size : Nat
  buffer_index : Nat
  last_block_sent : Bool

/-- The globals as the C initialisers leave them. -/
def State.initial : State where
  m_buffer_tx := fun _ => Block.zero
  mp_block_to_fill := none
  sound_index := 44
  current_wav_size := 0
  buffer_index := 0
  last_block_sent := false

/-! ## Frame encoder -/

/-- The expression
`(AUDIO16[(sound_index * 2) + 1] << 8) | AUDIO16[(sound_index * 2) + 0]`;
`none` when one of the two reads is outside `AUDIO16`. -/
def sample_l (AUDIO16 : List Byte) (sound_index : Nat) : Option Nat :=
  match AUDIO16[(sound_index * 2 + 1) % UINT32_MOD]?,
        AUDIO16[(sound_index * 2 + 0) % UINT32_MOD]? with
  | some hi, some lo => some ((hi.val <<< 8) ||| lo.val)
  | _, _ => none

/-- The `for` loop of `prepare_tx_data`: `n` iterations remain, the loop
variable is `i`.  Returns the block and the new `sound_index`. -/
def prepare_tx_loop (AUDIO16 : List Byte) (current_wav_size : Nat) :
    Nat → Nat → Block → Nat → Option (Block × Nat)
  | 0, _, p_block, sound_index => some (p_block, sound_index)
  | n + 1, i, p_block, sound_index =>
    if sound_index < current_wav_size then
      match sample_l AUDIO16 sound_index with
      | some s =>
        prepare_tx_loop AUDIO16 current_wav_size n (i + 1)
          (p_block.write i (s &&& 0x0000FFFF)) ((sound_index + 1) % UINT32_MOD)
      | none => none
    else
      prepare_tx_loop AUDIO16 current_wav_size n (i + 1) (p_block.write i 0) sound_index

/-- Function `prepare_tx_data(p_block)` with `p_block = m_buffer_tx[b]`. -/
def prepare_tx_data (AUDIO16 : List Byte) (s : State) (b : Fin 2) : Option State :=
  match prepare_tx_loop AUDIO16 s.current_wav_size I2S_DATA_BLOCK_WORDS 0
      (s.m_buffer_tx b) s.sound_index with
  | some (blk, si) =>
    some { s with m_buffer_tx := Function.update s.m_buffer_tx b blk, sound_index := si }
  | none => none

/-! ## Event handler -/

/-- Function `data_handler(p_released, status)`; `p_released` stands for
`p_released->p_tx_buffer`.  The second component of the result is the buffer
passed to `nrf_drv_i2s_next_buffers_set`, if that call is made. -/
def data_handler (AUDIO16 : List Byte) (s : State) (p_released : Option (Fin 2))
    (status : Nat) : Option (State × Option (Fin 2)) :=
  if status &&& NRFX_I2S_STATUS_NEXT_BUFFERS_NEEDED = 0 then
    some (s, none)
  else if s.current_wav_size ≤ s.sound_index ∧ s.last_block_sent = false then
    some ({ s with last_block_sent := true }, none)
  else
    let filled : Option State :=
      match p_released with
      | some b => prepare_tx_data AUDIO16 { s with mp_block_to_fill := some b } b
      | none => some s
    match filled with
    | some s1 =>
      let next : Fin 2 := ⟨(s1.buffer_index + 1) % 2, Nat.mod_lt _ (by decide)⟩
      some ({ s1 with buffer_index := next.val }, some next)
    | none => none

/-! ## Playback controller -/

/-- The expression `(wav_length - 44) / 2` in `uint32_t` arithmetic. -/
def wav_size_of (wav_length : Nat) : Nat :=
  ((wav_length + UINT32_MOD - 44) % UINT32_MOD) / 2

/-- The part of `play_wav(data, wav_length)` that runs before the wait loop.
The result carries the two arguments of `nrf_drv_i2s_start`: the initial
buffer and the block size. -/
def play_wav_init (AUDIO16 : List Byte) (s : State) (_data : List Byte)
    (wav_length : Nat) : Option (State × Fin 2 × Nat) :=
  (prepare_tx_data AUDIO16
      { s with
        mp_block_to_fill := none
        sound_index := 44
        current_wav_size := wav_size_of wav_length
        buffer_index := 0
        last_block_sent := false } 0).bind fun s1 =>
    (prepare_tx_data AUDIO16 s1 1).bind fun s2 =>
      some (s2, 0, I2S_DATA_BLOCK_WORDS)

/-- One call of the event handler by the driver. -/
structure Notification where
  p_released : Option (Fin 2)
  status : Nat

/-- The handler applied to a sequence of notifications; the result lists, for
each notification, the state it leaves and the buffer it hands over. -/
def run_notifications (AUDIO16 : List Byte) :
    State → List Notification → Option (List (State × Option (Fin 2)))
  | _, [] => some []
  | s, n :: ns =>
    match data_handler AUDIO16 s n.p_released n.status with
    | some (s1, out) =>
      match run_notifications AUDIO16 s1 ns with
      | some rest => some ((s1, out) :: rest)
      | none => none
    | none => none

/-! ## Definitions used to state the properties -/

/-- The 16-bit little-endian sample number `k` of the asset, as a number. -/
def sample16 (AUDIO16 : List Byte) (k : Nat) : Nat :=
  (AUDIO16.getD (2 * k + 1) 0).val * 256 + (AUDIO16.getD (2 * k) 0).val

/-- The word the encoder owes to slot `i` of a block started at cursor `c`. -/
def encoded_word (AUDIO16 : List Byte) (limit c i : Nat) : Nat :=
  if c + i < limit then sample16 AUDIO16 (c + i) else 0

/-- The block the encoder owes when started at cursor `c`: slot `i` holds
`encoded_word AUDIO16 limit c i`. -/
def encoded_block (AUDIO16 : List Byte) (limit c : Nat) : Block :=
  ⟨(List.range I2S_DATA_BLOCK_WORDS).map (encoded_word AUDIO16 limit c), by simp⟩

/-- The cursor after one encoder call started at `c`. -/
def cursor_after (limit c : Nat) : Nat :=
  c + min I2S_DATA_BLOCK_WORDS (limit - c)

/-- The index `(buffer_index + 1) % 2` the handler switches to. -/
def next_index (s : State) : Fin 2 :=
  ⟨(s.buffer_index + 1) % 2, Nat.mod_lt _ (by decide)⟩

/-- The state in which notification number `k` (from 0) of a run finds the
globals: the start state for `k = 0`, else the state left by notification
`k - 1`. -/
def state_before (s0 : State) (tr : List (State × Option (Fin 2))) : Nat → State
  | 0 => s0
  | k + 1 => match tr[k]? with
    | some r => r.1
    | none => s0

/-- The buffer indices given to the driver in a session: the one passed to
`nrf_drv_i2s_start`, then the one of every handoff made by the handler. -/
def handoffs (first : Fin 2) (tr : List (State × Option (Fin 2))) : List (Fin 2) :=
  first :: tr.filterMap (fun r => r.2)

/-- A test asset of `n` bytes: byte number `i` is `i % 256`. -/
def ramp (n : Nat) : List Byte :=
  (List.range n).map (fun i => Fin.ofNat i)

/-- A notification with the next-buffers-needed bit set that releases buffer `b`. -/
def needed (b : Fin 2) : Notification :=
  ⟨some b, NRFX_I2S_STATUS_NEXT_BUFFERS_NEEDED⟩

/-- Successive encoder calls, one for each buffer index of the list. -/
def prepare_tx_data_seq (AUDIO16 : List Byte) : State → List (Fin 2) → Option State
  | s, [] => some s
  | s, b :: bs =>
    (prepare_tx_data AUDIO16 s b).bind fun s1 => prepare_tx_data_seq AUDIO16 s1 bs

/-- The words encoded by the handler on one notification: the handler calls
the encoder exactly when it goes on to hand a buffer over and the released
buffer is non-null; the words are then the contents of that buffer. -/
def refill_words (n : Notification) (r : State × Option (Fin 2)) : List Nat :=
  match n.p_released, r.2 with
  | some b, some _ => (r.1.m_buffer_tx b).val
  | _, _ => []

/-- The words encoded by the refills of a run, in order. -/
def refill_stream : List Notification → List (State × Option (Fin 2)) → List Nat
  | n :: ns, r :: tr => refill_words n r ++ refill_stream ns tr
  | _, _ => []

/-- The words encoded in a session, in order: the two pre-fills of `play_wav`
(buffer 0, then buffer 1), then the refills. -/
def encoded_stream (s0 : State) (ns : List Notification)
    (tr : List (State × Option (Fin 2))) : List Nat :=
  (s0.m_buffer_tx 0).val ++ ((s0.m_buffer_tx 1).val ++ refill_stream ns tr)

/-- A session: the initialisation of `play_wav` followed by a run of
notifications; the result is the state after initialisation, the run, and the
words encoded. -/
def session (AUDIO16 : List Byte) (s : State) (data : List Byte) (wav_length : Nat)
    (ns : List Notification) :
    Option (State × List (State × Option (Fin 2)) × List Nat) :=
  (play_wav_init AUDIO16 s data wav_length).bind fun r =>
    (run_notifications AUDIO16 r.1 ns).bind fun tr =>
      some (r.1, tr, encoded_stream r.1 ns tr)

/-- Number of slots of a block started at cursor `c` that receive a real
sample (the guard `c + i < limit` holds at slot `i`). -/
def real_words (limit c : Nat) : Nat :=
  ((List.range I2S_DATA_BLOCK_WORDS).filter (fun i => decide (c + i < limit))).length

/-! ## The encoder: auxiliary lemmas -/

theorem Block.read_write (p_block : Block) (i w j : Nat) :
    (p_block.write i w).read j =
      if j = i ∧ i < I2S_DATA_BLOCK_WORDS then w else p_block.read j := by
  obtain ⟨l, hl⟩ := p_block
  simp only [Block.write, Block.read, List.getD_eq_getElem?_getD, List.getElem?_set]
  by_cases hji : i = j
  · subst hji
    by_cases hi : i < I2S_DATA_BLOCK_WORDS
    · simp [hi, hl]
    · have : l[i]? = none := by
        rw [List.getElem?_eq_none_iff]; omega
      simp [hi, hl, this]
  · have : ¬ j = i := fun h => hji h.symm
    simp [hji, this]

theorem sample16_lt (AUDIO16 : List Byte) (k : Nat) : sample16 AUDIO16 k < 2 ^ 16 := by
  unfold sample16
  have h1 := (AUDIO16.getD (2 * k + 1) 0).isLt
  have h2 := (AUDIO16.getD (2 * k) 0).isLt
  omega

theorem sample_l_eq (AUDIO16 : List Byte) (k : Nat)
    (hk : 2 * k + 1 < AUDIO16.length) (hlen : AUDIO16.length ≤ UINT32_MOD) :
    sample_l AUDIO16 k = some (sample16 AUDIO16 k) := by
  have h1 : (k * 2 + 1) % UINT32_MOD = 2 * k + 1 := by
    rw [Nat.mod_eq_of_lt (by omega)]; omega
  have h0 : (k * 2 + 0) % UINT32_MOD = 2 * k := by
    rw [Nat.mod_eq_of_lt (by omega)]; omega
  have g1 : AUDIO16[2 * k + 1]? = some (AUDIO16.getD (2 * k + 1) 0) := by
    rw [List.getD_eq_getElem?_getD, List.getElem?_eq_getElem hk]; rfl
  have g0 : AUDIO16[2 * k]? = some (AUDIO16.getD (2 * k) 0) := by
    rw [List.getD_eq_getElem?_getD, List.getElem?_eq_getElem (by omega)]; rfl
  unfold sample_l
  rw [h1, h0, g1, g0]
  simp only [sample16]
  have hlo := (AUDIO16.getD (2 * k) 0).isLt
  have hmul := Nat.mul_add_lt_is_or (i := 8) (b := (AUDIO16.getD (2 * k) 0).val)
    (by simp) (AUDIO16.getD (2 * k + 1) 0).val
  rw [Nat.shiftLeft_eq, Nat.mul_comm, ← hmul]

theorem and_ffff (w : Nat) (h : w < 2 ^ 16) : w &&& 0x0000FFFF = w := by
  have : (0x0000FFFF : Nat) = 2 ^ 16 - 1 := by norm_num
  rw [this, Nat.and_pow_two_sub_one_eq_mod, Nat.mod_eq_of_lt h]

/-- The loop of the encoder on an asset that holds `current_wav_size` whole
samples: it never fails, fills slots `i .. i + n - 1` and advances the cursor
by the number of real samples. -/
theorem prepare_tx_loop_spec (AUDIO16 : List Byte) (limit : Nat)
    (hsz : 2 * limit ≤ AUDIO16.length) (hlen : AUDIO16.length ≤ UINT32_MOD) :
    ∀ (n i : Nat) (p_block : Block) (c : Nat), i + n ≤ I2S_DATA_BLOCK_WORDS →
      ∃ blk : Block,
        prepare_tx_loop AUDIO16 limit n i p_block c
          = some (blk, c + min n (limit - c)) ∧
        ∀ j, blk.read j =
          if i ≤ j ∧ j < i + n then encoded_word AUDIO16 limit c (j - i)
          else p_block.read j := by
  intro n
  induction n with
  | zero =>
    intro i p_block c _
    refine ⟨p_block, by simp [prepare_tx_loop], ?_⟩
    intro j
    have : ¬ (i ≤ j ∧ j < i + 0) := by omega
    rw [if_neg this]
  | succ n ih =>
    intro i p_block c hin
    by_cases hc : c < limit
    · have hs := sample_l_eq AUDIO16 c (by omega) hlen
      have hw := and_ffff _ (sample16_lt AUDIO16 c)
      have hmod : (c + 1) % UINT32_MOD = c + 1 := Nat.mod_eq_of_lt (by omega)
      obtain ⟨blk, hrun, hread⟩ :=
        ih (i + 1) (p_block.write i (sample16 AUDIO16 c)) (c + 1) (by omega)
      refine ⟨blk, ?_, ?_⟩
      · simp only [prepare_tx_loop, hc, if_true, hs, hw, hmod, hrun]
        congr 2
        omega
      · intro j
        rw [hread j, Block.read_write]
        by_cases h1 : i + 1 ≤ j ∧ j < i + 1 + n
        · have h2 : i ≤ j ∧ j < i + (n + 1) := by omega
          have h3 : c + 1 + (j - (i + 1)) = c + (j - i) := by omega
          simp only [h1, h2, and_self, if_true, encoded_word, h3]
        · by_cases h4 : j = i
          · subst h4
            have h5 : j ≤ j ∧ j < j + (n + 1) := by omega
            have h6 : j < I2S_DATA_BLOCK_WORDS := by omega
            simp [h1, h5, h6, encoded_word, hc]
          · have h5 : ¬ (i ≤ j ∧ j < i + (n + 1)) := by omega
            simp [h1, h4, h5]
    · obtain ⟨blk, hrun, hread⟩ :=
        ih (i + 1) (p_block.write i 0) c (by omega)
      refine ⟨blk, ?_, ?_⟩
      · simp only [prepare_tx_loop, hc, if_false, hrun]
        congr 2
        omega
      · intro j
        rw [hread j, Block.read_write]
        have hz : ∀ k, encoded_word AUDIO16 limit c k = 0 := by
          intro k
          have : ¬ c + k < limit := by omega
          simp [encoded_word, this]
        by_cases h1 : i + 1 ≤ j ∧ j < i + 1 + n
        · have h2 : i ≤ j ∧ j < i + (n + 1) := by omega
          simp only [h1, h2, and_self, if_true, hz]
        · by_cases h4 : j = i
          · subst h4
            have h5 : j ≤ j ∧ j < j + (n + 1) := by omega
            have h6 : j < I2S_DATA_BLOCK_WORDS := by omega
            simp [h1, h5, h6, hz]
          · have h5 : ¬ (i ≤ j ∧ j < i + (n + 1)) := by omega
            simp [h1, h4, h5]

theorem encoded_block_read (AUDIO16 : List Byte) (limit c i : Nat)
    (hi : i < I2S_DATA_BLOCK_WORDS) :
    (encoded_block AUDIO16 limit c).read i = encoded_word AUDIO16 limit c i := by
  simp [encoded_block, Block.read, List.getD_eq_getElem?_getD, List.getElem?_map,
    List.getElem?_range hi]

theorem Block.ext_read (b1 b2 : Block)
    (h : ∀ i, i < I2S_DATA_BLOCK_WORDS → b1.read i = b2.read i) : b1 = b2 := by
  obtain ⟨l1, h1⟩ := b1
  obtain ⟨l2, h2⟩ := b2
  apply Subtype.ext
  apply List.ext_getElem (by rw [h1, h2])
  intro i hi1 hi2
  have := h i (by rw [← h1]; exact hi1)
  simpa [Block.read, List.getD_eq_getElem?_getD, List.getElem?_eq_getElem hi1,
    List.getElem?_eq_getElem hi2] using this

/-- Closed form of one encoder call on an asset holding `current_wav_size`
whole samples. -/
theorem prepare_tx_data_eq (AUDIO16 : List Byte) (s : State) (b : Fin 2)
    (hsz : 2 * s.current_wav_size ≤ AUDIO16.length)
    (hlen : AUDIO16.length ≤ UINT32_MOD) :
    prepare_tx_data AUDIO16 s b = some
      { s with
        m_buffer_tx := Function.update s.m_buffer_tx b
          (encoded_block AUDIO16 s.current_wav_size s.sound_index)
        sound_index := cursor_after s.current_wav_size s.sound_index } := by
  obtain ⟨blk, hrun, hread⟩ :=
    prepare_tx_loop_spec AUDIO16 s.current_wav_size hsz hlen I2S_DATA_BLOCK_WORDS 0
      (s.m_buffer_tx b) s.sound_index (by omega)
  have hblk : blk = encoded_block AUDIO16 s.current_wav_size s.sound_index := by
    apply Block.ext_read
    intro i hi
    rw [hread i, encoded_block_read _ _ _ _ hi]
    have : 0 ≤ i ∧ i < 0 + I2S_DATA_BLOCK_WORDS := by omega
    rw [if_pos this, Nat.sub_zero]
  simp only [prepare_tx_data, hrun, hblk, cursor_after]

/-! ## The handler: one lemma per path -/

theorem data_handler_ignored (AUDIO16 : List Byte) (s : State)
    (p_released : Option (Fin 2)) (status : Nat)
    (hbit : status &&& NRFX_I2S_STATUS_NEXT_BUFFERS_NEEDED = 0) :
    data_handler AUDIO16 s p_released status = some (s, none) := by
  simp [data_handler, hbit]

theorem data_handler_last (AUDIO16 : List Byte) (s : State)
    (p_released : Option (Fin 2)) (status : Nat)
    (hbit : status &&& NRFX_I2S_STATUS_NEXT_BUFFERS_NEEDED ≠ 0)
    (hex : s.current_wav_size ≤ s.sound_index) (hflag : s.last_block_sent = false) :
    data_handler AUDIO16 s p_released status
      = some ({ s with last_block_sent := true }, none) := by
  simp [data_handler, hbit, hex, hflag]

theorem data_handler_null (AUDIO16 : List Byte) (s : State) (status : Nat)
    (hbit : status &&& NRFX_I2S_STATUS_NEXT_BUFFERS_NEEDED ≠ 0)
    (hgo : ¬ (s.current_wav_size ≤ s.sound_index ∧ s.last_block_sent = false)) :
    data_handler AUDIO16 s none status
      = some ({ s with buffer_index := (s.buffer_index + 1) % 2 }, some (next_index s)) := by
  simp only [data_handler, if_neg hbit, if_neg hgo, next_index]

theorem data_handler_refill (AUDIO16 : List Byte) (s : State) (b : Fin 2) (status : Nat)
    (hbit : status &&& NRFX_I2S_STATUS_NEXT_BUFFERS_NEEDED ≠ 0)
    (hgo : ¬ (s.current_wav_size ≤ s.sound_index ∧ s.last_block_sent = false))
    (hsz : 2 * s.current_wav_size ≤ AUDIO16.length)
    (hlen : AUDIO16.length ≤ UINT32_MOD) :
    data_handler AUDIO16 s (some b) status
      = some ({ s with
                mp_block_to_fill := some b
                m_buffer_tx := Function.update s.m_buffer_tx b
                  (encoded_block AUDIO16 s.current_wav_size s.sound_index)
                sound_index := cursor_after s.current_wav_size s.sound_index
                buffer_index := (s.buffer_index + 1) % 2 }, some (next_index s)) := by
  have h := prepare_tx_data_eq AUDIO16 { s with mp_block_to_fill := some b } b hsz hlen
  simp only [data_handler, if_neg hbit, if_neg hgo, h, next_index]

/-- The encoder touches nothing but the block and the cursor. -/
theorem prepare_tx_data_frame (AUDIO16 : List Byte) (s s1 : State) (b : Fin 2)
    (h : prepare_tx_data AUDIO16 s b = some s1) :
    s1.current_wav_size = s.current_wav_size ∧ s1.buffer_index = s.buffer_index ∧
    s1.last_block_sent = s.last_block_sent ∧ s1.mp_block_to_fill = s.mp_block_to_fill ∧
    ∀ b1, b1 ≠ b → s1.m_buffer_tx b1 = s.m_buffer_tx b1 := by
  unfold prepare_tx_data at h
  split at h
  · simp only [Option.some.injEq] at h
    subst h
    refine ⟨rfl, rfl, rfl, rfl, ?_⟩
    intro b1 hb1
    simp [Function.update, hb1]
  · simp at h

/-- Whatever path is taken, the handler leaves the limit alone, never clears
the completion flag and never moves the cursor back. -/
theorem data_handler_frame (AUDIO16 : List Byte) (s s1 : State)
    (p_released : Option (Fin 2)) (status : Nat) (out : Option (Fin 2))
    (h : data_handler AUDIO16 s p_released status = some (s1, out)) :
    s1.current_wav_size = s.current_wav_size ∧
    (s.last_block_sent = true → s1.last_block_sent = true) ∧
    (out = none → s1.buffer_index = s.buffer_index) ∧
    (∀ b, out = some b → b = next_index s ∧ s1.buffer_index = (next_index s).val ∧
      s1.last_block_sent = s.last_block_sent) := by
  unfold data_handler at h
  split at h
  · simp only [Option.some.injEq, Prod.mk.injEq] at h
    obtain ⟨rfl, rfl⟩ := h
    simp
  · split at h
    · simp only [Option.some.injEq, Prod.mk.injEq] at h
      obtain ⟨rfl, rfl⟩ := h
      simp
    · cases p_released with
      | none =>
        simp only [Option.some.injEq, Prod.mk.injEq] at h
        obtain ⟨rfl, rfl⟩ := h
        simp [next_index]
      | some b =>
        cases hp : prepare_tx_data AUDIO16 { s with mp_block_to_fill := some b } b with
        | none => simp [hp] at h
        | some s2 =>
          obtain ⟨h1, h2, h3, _, _⟩ := prepare_tx_data_frame AUDIO16 _ s2 b hp
          simp only [hp, Option.some.injEq, Prod.mk.injEq] at h
          obtain ⟨rfl, rfl⟩ := h
          simp only [next_index] at *
          simp_all

/-- The handler cannot fail on an asset that holds `current_wav_size` whole
samples. -/
theorem data_handler_total (AUDIO16 : List Byte) (s : State)
    (p_released : Option (Fin 2)) (status : Nat)
    (hsz : 2 * s.current_wav_size ≤ AUDIO16.length)
    (hlen : AUDIO16.length ≤ UINT32_MOD) :
    ∃ r, data_handler AUDIO16 s p_released status = some r := by
  by_cases hbit : status &&& NRFX_I2S_STATUS_NEXT_BUFFERS_NEEDED = 0
  · exact ⟨_, data_handler_ignored AUDIO16 s p_released status hbit⟩
  · by_cases hgo : s.current_wav_size ≤ s.sound_index ∧ s.last_block_sent = false
    · exact ⟨_, data_handler_last AUDIO16 s p_released status hbit hgo.1 hgo.2⟩
    · cases p_released with
      | none => exact ⟨_, data_handler_null AUDIO16 s status hbit hgo⟩
      | some b => exact ⟨_, data_handler_refill AUDIO16 s b status hbit hgo hsz hlen⟩

/-! ## Initialisation and runs of the handler -/

theorem wav_size_of_eq (wav_length : Nat) (h44 : 44 ≤ wav_length)
    (h32 : wav_length < UINT32_MOD) :
    wav_size_of wav_length = (wav_length - 44) / 2 := by
  unfold wav_size_of
  unfold UINT32_MOD at *
  omega

/-- Closed form of the initialisation done by `play_wav`. -/
theorem play_wav_init_eq (AUDIO16 : List Byte) (s : State) (data : List Byte)
    (wav_length : Nat) (hsz : 2 * wav_size_of wav_length ≤ AUDIO16.length)
    (hlen : AUDIO16.length ≤ UINT32_MOD) :
    play_wav_init AUDIO16 s data wav_length = some
      ({ m_buffer_tx :=
           Function.update
             (Function.update s.m_buffer_tx 0
               (encoded_block AUDIO16 (wav_size_of wav_length) 44))
             1 (encoded_block AUDIO16 (wav_size_of wav_length)
               (cursor_after (wav_size_of wav_length) 44))
         mp_block_to_fill := none
         sound_index :=
           cursor_after (wav_size_of wav_length) (cursor_after (wav_size_of wav_length) 44)
         current_wav_size := wav_size_of wav_length
         buffer_index := 0
         last_block_sent := false }, 0, I2S_DATA_BLOCK_WORDS) := by
  have h0 := prepare_tx_data_eq AUDIO16
    { s with
      mp_block_to_fill := none
      sound_index := 44
      current_wav_size := wav_size_of wav_length
      buffer_index := 0
      last_block_sent := false } 0 hsz hlen
  have h1 := prepare_tx_data_eq AUDIO16
    { m_buffer_tx := Function.update s.m_buffer_tx 0
        (encoded_block AUDIO16 (wav_size_of wav_length) 44)
      mp_block_to_fill := none
      sound_index := cursor_after (wav_size_of wav_length) 44
      current_wav_size := wav_size_of wav_length
      buffer_index := 0
      last_block_sent := false } 1 hsz hlen
  unfold play_wav_init
  rw [h0, Option.some_bind, h1, Option.some_bind]

theorem state_before_cons (s : State) (x : State × Option (Fin 2))
    (rest : List (State × Option (Fin 2))) (k : Nat) (hk : k ≤ rest.length) :
    state_before s (x :: rest) (k + 1) = state_before x.1 rest k := by
  cases k with
  | zero => simp [state_before]
  | succ j =>
    have hj : j < rest.length := by omega
    simp [state_before, List.getElem?_eq_getElem hj]

/-- A run is a chain of handler calls: entry `k` of the result is what the
handler returns on notification `k` in the state left by notification `k - 1`. -/
theorem run_notifications_chain (AUDIO16 : List Byte) :
    ∀ (ns : List Notification) (s : State) (tr : List (State × Option (Fin 2))),
      run_notifications AUDIO16 s ns = some tr →
      tr.length = ns.length ∧
      ∀ k n, ns[k]? = some n → ∃ r, tr[k]? = some r ∧
        data_handler AUDIO16 (state_before s tr k) n.p_released n.status = some r := by
  intro ns
  induction ns with
  | nil =>
    intro s tr h
    simp only [run_notifications, Option.some.injEq] at h
    subst h
    simp
  | cons n0 ns ih =>
    intro s tr h
    simp only [run_notifications] at h
    cases hd : data_handler AUDIO16 s n0.p_released n0.status with
    | none => simp [hd] at h
    | some r0 =>
      obtain ⟨s1, out⟩ := r0
      simp only [hd] at h
      cases hr : run_notifications AUDIO16 s1 ns with
      | none => simp [hr] at h
      | some rest =>
        simp only [hr, Option.some.injEq] at h
        subst h
        obtain ⟨hlen, hstep⟩ := ih s1 rest hr
        refine ⟨by simp [hlen], ?_⟩
        intro k n hk
        cases k with
        | zero =>
          simp only [List.getElem?_cons_zero, Option.some.injEq] at hk
          subst hk
          exact ⟨(s1, out), by simp, by simpa [state_before] using hd⟩
        | succ j =>
          simp only [List.getElem?_cons_succ] at hk
          obtain ⟨r, hr1, hr2⟩ := hstep j n hk
          have hj : j < ns.length := by
            rcases List.getElem?_eq_some_iff.mp hk with ⟨hj, _⟩
            exact hj
          refine ⟨r, by simpa using hr1, ?_⟩
          rw [state_before_cons s (s1, out) rest j (by omega)]
          exact hr2

/-- A run cannot fail on an asset that holds `current_wav_size` whole samples. -/
theorem run_notifications_total (AUDIO16 : List Byte)
    (hlen : AUDIO16.length ≤ UINT32_MOD) :
    ∀ (ns : List Notification) (s : State),
      2 * s.current_wav_size ≤ AUDIO16.length →
      ∃ tr, run_notifications AUDIO16 s ns = some tr := by
  intro ns
  induction ns with
  | nil => intro s _; exact ⟨[], rfl⟩
  | cons n0 ns ih =>
    intro s hsz
    obtain ⟨r0, hd⟩ := data_handler_total AUDIO16 s n0.p_released n0.status hsz hlen
    obtain ⟨s1, out⟩ := r0
    have hcw := (data_handler_frame AUDIO16 s s1 _ _ out hd).1
    obtain ⟨rest, hr⟩ := ih s1 (by rw [hcw]; exact hsz)
    exact ⟨(s1, out) :: rest, by simp [run_notifications, hd, hr]⟩

/-- What decides whether the handler hands a buffer over and whether the
completion flag is set afterwards. -/
theorem data_handler_flag (AUDIO16 : List Byte) (s s1 : State)
    (p_released : Option (Fin 2)) (status : Nat) (out : Option (Fin 2))
    (h : data_handler AUDIO16 s p_released status = some (s1, out)) :
    (out = none ↔ (status &&& NRFX_I2S_STATUS_NEXT_BUFFERS_NEEDED = 0 ∨
      (s.current_wav_size ≤ s.sound_index ∧ s.last_block_sent = false))) ∧
    (s1.last_block_sent = true ↔ (s.last_block_sent = true ∨
      (status &&& NRFX_I2S_STATUS_NEXT_BUFFERS_NEEDED ≠ 0 ∧
        s.current_wav_size ≤ s.sound_index))) := by
  by_cases hbit : status &&& NRFX_I2S_STATUS_NEXT_BUFFERS_NEEDED = 0
  · rw [data_handler_ignored AUDIO16 s p_released status hbit] at h
    simp only [Option.some.injEq, Prod.mk.injEq] at h
    obtain ⟨rfl, rfl⟩ := h
    simp [hbit]
  · by_cases hgo : s.current_wav_size ≤ s.sound_index ∧ s.last_block_sent = false
    · rw [data_handler_last AUDIO16 s p_released status hbit hgo.1 hgo.2] at h
      simp only [Option.some.injEq, Prod.mk.injEq] at h
      obtain ⟨rfl, rfl⟩ := h
      simp [hbit, hgo.1, hgo.2]
    · obtain ⟨_, _, hnone, hsome⟩ := data_handler_frame AUDIO16 s s1 p_released status out h
      have hout : out = some (next_index s) := by
        unfold data_handler at h
        rw [if_neg hbit, if_neg hgo] at h
        cases p_released with
        | none =>
          simp only [Option.some.injEq, Prod.mk.injEq] at h
          rw [← h.2]; rfl
        | some b =>
          cases hp : prepare_tx_data AUDIO16 { s with mp_block_to_fill := some b } b with
          | none => simp [hp] at h
          | some s2 =>
            obtain ⟨_, h2, _⟩ := prepare_tx_data_frame AUDIO16 _ s2 b hp
            simp only [hp, Option.some.injEq, Prod.mk.injEq] at h
            rw [← h.2]
            simp only [next_index, h2]
      obtain ⟨_, _, hl⟩ := hsome _ hout
      refine ⟨?_, ?_⟩
      · simp [hout, hbit, hgo]
      · rw [hl]
        constructor
        · intro ht; exact Or.inl ht
        · rintro (ht | ⟨_, hex⟩)
          · exact ht
          · by_contra hf
            exact hgo ⟨hex, by simpa using hf⟩

/-- One link of the chain of handler calls that makes up a run. -/
theorem run_notifications_step (AUDIO16 : List Byte) (ns : List Notification)
    (s : State) (tr : List (State × Option (Fin 2)))
    (h : run_notifications AUDIO16 s ns = some tr) (k : Nat) (hk : k < tr.length) :
    ∃ n r, ns[k]? = some n ∧ tr[k]? = some r ∧
      data_handler AUDIO16 (state_before s tr k) n.p_released n.status = some r ∧
      state_before s tr (k + 1) = r.1 := by
  obtain ⟨hlen, hstep⟩ := run_notifications_chain AUDIO16 ns s tr h
  have hk1 : k < ns.length := by omega
  obtain ⟨r, hr1, hr2⟩ := hstep k ns[k] (List.getElem?_eq_getElem hk1)
  refine ⟨ns[k], r, List.getElem?_eq_getElem hk1, hr1, hr2, ?_⟩
  simp [state_before, hr1]

/-- The limit is the same in every state of a run. -/
theorem run_notifications_limit (AUDIO16 : List Byte) (ns : List Notification)
    (s : State) (tr : List (State × Option (Fin 2)))
    (h : run_notifications AUDIO16 s ns = some tr) :
    ∀ k, k ≤ tr.length → (state_before s tr k).current_wav_size = s.current_wav_size := by
  intro k
  induction k with
  | zero => intro _; rfl
  | succ k ih =>
    intro hk
    obtain ⟨n, r, _, _, hd, hs⟩ := run_notifications_step AUDIO16 ns s tr h k (by omega)
    obtain ⟨s1, out⟩ := r
    rw [hs, (data_handler_frame AUDIO16 _ s1 _ _ out hd).1]
    exact ih (by omega)

/-- Length and bytes of the test asset. -/
theorem ramp_length (n : Nat) : (ramp n).length = n := by
  simp [ramp]

theorem ramp_getD (n k : Nat) (hk : k < n) : ((ramp n).getD k 0).val = k % 256 := by
  simp [ramp, List.getD_eq_getElem?_getD, List.getElem?_map, List.getElem?_range hk, Fin.ofNat]

theorem sample16_ramp (n k : Nat) (hk : 2 * k + 1 < n) :
    sample16 (ramp n) k = ((2 * k + 1) % 256) * 256 + (2 * k) % 256 := by
  rw [sample16, ramp_getD n _ hk, ramp_getD n _ (by omega)]

/-- Reading the two buffers of the state that `play_wav` sets up. -/
theorem read_after_init (tx : Fin 2 → Block) (blk0 blk1 : Block) :
    Function.update (Function.update tx 0 blk0) 1 blk1 0 = blk0 ∧
    Function.update (Function.update tx 0 blk0) 1 blk1 1 = blk1 := by
  constructor
  · rw [Function.update_noteq (by decide), Function.update_same]
  · rw [Function.update_same]

/-- The state that `play_wav` sets up, field by field. -/
theorem play_wav_init_state (AUDIO16 : List Byte) (s : State) (data : List Byte)
    (wav_length : Nat) (hsz : 2 * wav_size_of wav_length ≤ AUDIO16.length)
    (hlen : AUDIO16.length ≤ UINT32_MOD) :
    ∃ s0, play_wav_init AUDIO16 s data wav_length = some (s0, 0, I2S_DATA_BLOCK_WORDS) ∧
      s0.m_buffer_tx 0 = encoded_block AUDIO16 (wav_size_of wav_length) 44 ∧
      s0.m_buffer_tx 1 = encoded_block AUDIO16 (wav_size_of wav_length)
        (cursor_after (wav_size_of wav_length) 44) ∧
      s0.mp_block_to_fill = none ∧
      s0.sound_index
        = cursor_after (wav_size_of wav_length) (cursor_after (wav_size_of wav_length) 44) ∧
      s0.current_wav_size = wav_size_of wav_length ∧
      s0.buffer_index = 0 ∧
      s0.last_block_sent = false :=
  ⟨_, play_wav_init_eq AUDIO16 s data wav_length hsz hlen,
    (read_after_init s.m_buffer_tx
      (encoded_block AUDIO16 (wav_size_of wav_length) 44)
      (encoded_block AUDIO16 (wav_size_of wav_length)
        (cursor_after (wav_size_of wav_length) 44))).1,
    (read_after_init s.m_buffer_tx
      (encoded_block AUDIO16 (wav_size_of wav_length) 44)
      (encoded_block AUDIO16 (wav_size_of wav_length)
        (cursor_after (wav_size_of wav_length) 44))).2,
    rfl, rfl, rfl, rfl, rfl⟩

/-- While every notification so far has found the cursor below the limit, the
flag is still false and every one of them has handed a buffer over. -/
theorem run_while_streaming (AUDIO16 : List Byte) (ns : List Notification)
    (s : State) (tr : List (State × Option (Fin 2)))
    (h : run_notifications AUDIO16 s ns = some tr)
    (hflag : s.last_block_sent = false)
    (hbits : ∀ n ∈ ns, n.status &&& NRFX_I2S_STATUS_NEXT_BUFFERS_NEEDED ≠ 0) :
    ∀ k, k ≤ tr.length →
      (∀ j, j < k →
        (state_before s tr j).sound_index < (state_before s tr j).current_wav_size) →
      (state_before s tr k).last_block_sent = false ∧
      ∀ j rj, j < k → tr[j]? = some rj → rj.2 ≠ none ∧ rj.1.last_block_sent = false := by
  intro k
  induction k with
  | zero =>
    intro _ _
    exact ⟨hflag, fun j rj hj => absurd hj (Nat.not_lt_zero j)⟩
  | succ k ih =>
    intro hk hlt
    obtain ⟨hfk, hprev⟩ := ih (by omega) (fun j hj => hlt j (by omega))
    obtain ⟨n, r, hn, hr, hd, hs⟩ := run_notifications_step AUDIO16 ns s tr h k (by omega)
    obtain ⟨s1, out⟩ := r
    have hbit := hbits n (List.getElem?_mem hn)
    have hcur := hlt k (by omega)
    obtain ⟨hout, hfl⟩ := data_handler_flag AUDIO16 _ s1 _ _ out hd
    have hout1 : out ≠ none := by
      intro ho
      rcases hout.mp ho with hb | ⟨hex, _⟩
      · exact hbit hb
      · omega
    have hfl1 : s1.last_block_sent = false := by
      cases hb : s1.last_block_sent with
      | false => rfl
      | true =>
        rcases hfl.mp hb with ht | ⟨_, hex⟩
        · rw [hfk] at ht; exact absurd ht (by decide)
        · omega
    refine ⟨by rw [hs]; exact hfl1, ?_⟩
    intro j rj hj hrj
    by_cases hjk : j = k
    · subst hjk
      rw [hr] at hrj
      simp only [Option.some.injEq] at hrj
      subst hrj
      exact ⟨hout1, hfl1⟩
    · exact hprev j rj (by omega) hrj

/-- Once the flag is true in a run it stays true. -/
theorem run_flag_mono (AUDIO16 : List Byte) (ns : List Notification)
    (s : State) (tr : List (State × Option (Fin 2)))
    (h : run_notifications AUDIO16 s ns = some tr) (j : Nat)
    (hj : (state_before s tr j).last_block_sent = true) :
    ∀ d, j + d ≤ tr.length → (state_before s tr (j + d)).last_block_sent = true := by
  intro d
  induction d with
  | zero => intro _; exact hj
  | succ d ih =>
    intro hd
    obtain ⟨n, r, _, _, hstep, hs⟩ :=
      run_notifications_step AUDIO16 ns s tr h (j + d) (by omega)
    obtain ⟨s1, out⟩ := r
    have := (data_handler_frame AUDIO16 _ s1 _ _ out hstep).2.1 (ih (by omega))
    rw [← Nat.add_assoc, hs]
    exact this

/-- The handoffs of a run alternate, starting from the index after the
`buffer_index` of the start state. -/
theorem run_handoffs_alternate (AUDIO16 : List Byte) :
    ∀ (ns : List Notification) (s : State) (tr : List (State × Option (Fin 2))),
      run_notifications AUDIO16 s ns = some tr →
      ∀ k b, (tr.filterMap (fun r => r.2))[k]? = some b →
        b.val = (s.buffer_index + 1 + k) % 2 := by
  intro ns
  induction ns with
  | nil =>
    intro s tr h k b hb
    simp only [run_notifications, Option.some.injEq] at h
    subst h
    simp at hb
  | cons n0 ns ih =>
    intro s tr h k b hb
    simp only [run_notifications] at h
    cases hd : data_handler AUDIO16 s n0.p_released n0.status with
    | none => simp [hd] at h
    | some r0 =>
      obtain ⟨s1, out⟩ := r0
      simp only [hd] at h
      cases hr : run_notifications AUDIO16 s1 ns with
      | none => simp [hr] at h
      | some rest =>
        simp only [hr, Option.some.injEq] at h
        subst h
        obtain ⟨_, _, hnone, hsome⟩ := data_handler_frame AUDIO16 s s1 _ _ out hd
        cases out with
        | none =>
          have hbi := hnone rfl
          simp only [List.filterMap_cons] at hb
          have := ih s1 rest hr k b hb
          rw [hbi] at this
          exact this
        | some b0 =>
          obtain ⟨hb0, hbi, _⟩ := hsome b0 rfl
          simp only [List.filterMap_cons] at hb
          cases k with
          | zero =>
            simp only [List.getElem?_cons_zero, Option.some.injEq] at hb
            subst hb
            rw [hb0]
            simp [next_index]
          | succ j =>
            simp only [List.getElem?_cons_succ] at hb
            have := ih s1 rest hr j b hb
            rw [hbi] at this
            rw [this]
            simp only [next_index]
            omega

/-! ## Claims about the frame encoder -/

/-- C1: on an asset that holds `current_wav_size` whole samples (and fits the
32-bit address space of the target), one call of `prepare_tx_data` on a block
of 2048 slots returns; slot `i` then holds the little-endian 16-bit sample
`asset[2*(c+i)+1] * 256 + asset[2*(c+i)]` when `c + i < l` (both bytes inside
the asset, the word below `2^16`) and `0` when `c + i >= l`; `sound_index`
ends at `c + min 2048 (l - c)` when `c < l` and at `c` otherwise; the other
buffer and every other global are unchanged. -/
theorem prepare_tx_data_block_contents (AUDIO16 : List Byte) (s : State) (b : Fin 2)
    (hsz : 2 * s.current_wav_size ≤ AUDIO16.length)
    (hlen : AUDIO16.length < UINT32_MOD) :
    ∃ s1, prepare_tx_data AUDIO16 s b = some s1 ∧
      (∀ i, i < I2S_DATA_BLOCK_WORDS →
        (s.sound_index + i < s.current_wav_size →
          2 * (s.sound_index + i) + 1 < AUDIO16.length ∧
          (s1.m_buffer_tx b).read i =
            (AUDIO16.getD (2 * (s.sound_index + i) + 1) 0).val * 256
              + (AUDIO16.getD (2 * (s.sound_index + i)) 0).val) ∧
        (s.current_wav_size ≤ s.sound_index + i → (s1.m_buffer_tx b).read i = 0) ∧
        (s1.m_buffer_tx b).read i < 2 ^ 16) ∧
      (s.sound_index < s.current_wav_size →
        s1.sound_index
          = s.sound_index + min I2S_DATA_BLOCK_WORDS (s.current_wav_size - s.sound_index)) ∧
      (s.current_wav_size ≤ s.sound_index → s1.sound_index = s.sound_index) ∧
      (∀ b1, b1 ≠ b → s1.m_buffer_tx b1 = s.m_buffer_tx b1) ∧
      s1.mp_block_to_fill = s.mp_block_to_fill ∧
      s1.current_wav_size = s.current_wav_size ∧
      s1.buffer_index = s.buffer_index ∧
      s1.last_block_sent = s.last_block_sent := by
  have heq := prepare_tx_data_eq AUDIO16 s b hsz (Nat.le_of_lt hlen)
  obtain ⟨_, _, _, _, hother⟩ := prepare_tx_data_frame AUDIO16 s _ b heq
  refine ⟨_, heq, ?_, ?_, ?_, hother, rfl, rfl, rfl, rfl⟩
  · intro i hi
    have hrd : (Function.update s.m_buffer_tx b
        (encoded_block AUDIO16 s.current_wav_size s.sound_index) b).read i
          = encoded_word AUDIO16 s.current_wav_size s.sound_index i := by
      rw [Function.update_same, encoded_block_read _ _ _ _ hi]
    refine ⟨?_, ?_, ?_⟩
    · intro hc
      refine ⟨by omega, ?_⟩
      show (Function.update s.m_buffer_tx b _ b).read i = _
      rw [hrd, encoded_word, if_pos hc, sample16]
    · intro hc
      show (Function.update s.m_buffer_tx b _ b).read i = _
      rw [hrd, encoded_word, if_neg (by omega)]
    · show (Function.update s.m_buffer_tx b _ b).read i < _
      rw [hrd, encoded_word]
      split
      · exact sample16_lt AUDIO16 _
      · norm_num
  · intro _
    rfl
  · intro hc
    show cursor_after s.current_wav_size s.sound_index = s.sound_index
    unfold cursor_after
    omega

/-- Witness of C1 on the 100-byte test asset with cursor 44 and limit 50: the
call returns, slot 0 holds the sample at bytes 88 and 89, slot 6 holds
silence and the cursor ends at 50. -/
theorem prepare_tx_data_block_contents_witness :
    ∃ s1, prepare_tx_data (ramp 100)
        { State.initial with sound_index := 44, current_wav_size := 50 } 0 = some s1 ∧
      (s1.m_buffer_tx 0).read 0 = 89 * 256 + 88 ∧
      (s1.m_buffer_tx 0).read 6 = 0 ∧
      s1.sound_index = 50 := by
  obtain ⟨s1, h, hslot, hc, _⟩ := prepare_tx_data_block_contents (ramp 100)
    { State.initial with sound_index := 44, current_wav_size := 50 } 0
    (by decide) (by decide)
  refine ⟨s1, h, ?_, ((hslot 6 (by decide)).2.1 (by decide)), hc (by decide)⟩
  have h0 := ((hslot 0 (by decide)).1 (by decide)).2
  rw [h0]
  exact congrArg₂ (fun a b => a * 256 + b) (ramp_getD 100 89 (by decide))
    (ramp_getD 100 88 (by decide))

/-! ## Claims about whole sessions -/

/-- C2: evaluation of the code where the claim fails.  The claim says that the
first word encoded in a session is logical sample 0 of the source (bytes 44
and 45) and that all `S` samples are encoded.  On the 244-byte asset whose
byte `i` is `i` (100 samples) `play_wav` sets the limit to 100 and starts the
cursor at sample index 44, so the first word it encodes is the sample at bytes
88 and 89 (value 22872, not 11564), and word number 56 is already silence
although logical sample 56 (bytes 156 and 157) is 40348. -/
theorem play_wav_init_skips_samples :
    ∃ s0, play_wav_init (ramp 244) State.initial (ramp 244) 244
        = some (s0, 0, I2S_DATA_BLOCK_WORDS) ∧
      s0.current_wav_size = 100 ∧
      (s0.m_buffer_tx 0).read 0 = 22872 ∧
      ((ramp 244).getD 45 0).val * 256 + ((ramp 244).getD 44 0).val = 11564 ∧
      (s0.m_buffer_tx 0).read 56 = 0 ∧
      ((ramp 244).getD 157 0).val * 256 + ((ramp 244).getD 156 0).val = 40348 := by
  have hw : wav_size_of 244 = 100 := by decide
  obtain ⟨s0, hinit, h0, _, _, _, hl, _, _⟩ :=
    play_wav_init_state (ramp 244) State.initial (ramp 244) 244
      (by rw [hw, ramp_length]; decide) (by rw [ramp_length]; decide)
  refine ⟨s0, hinit, by rw [hl, hw], ?_, ?_, ?_, ?_⟩
  · rw [h0, encoded_block_read _ _ _ _ (by decide), hw,
      encoded_word, if_pos (by decide), sample16_ramp _ _ (by decide)]
  · rw [ramp_getD _ _ (by decide), ramp_getD _ _ (by decide)]
  · rw [h0, encoded_block_read _ _ _ _ (by decide), hw,
      encoded_word, if_neg (by decide)]
  · rw [ramp_getD _ _ (by decide), ramp_getD _ _ (by decide)]

/-- C3: evaluation of the code where the claim fails.  The claim says that at
completion `sound_index` equals the limit `S`.  With `wav_length = 44 + 2 * 10`
the limit is 10 while the cursor starts at 44: the first notification that
asks for a buffer completes the session with `sound_index = 44`. -/
theorem session_completes_with_cursor_past_limit :
    ∃ s0 s1, play_wav_init (ramp 64) State.initial (ramp 64) 64
        = some (s0, 0, I2S_DATA_BLOCK_WORDS) ∧
      data_handler (ramp 64) s0 (some 0) NRFX_I2S_STATUS_NEXT_BUFFERS_NEEDED
        = some (s1, none) ∧
      s0.last_block_sent = false ∧
      s1.last_block_sent = true ∧
      s1.current_wav_size = 10 ∧
      s1.sound_index = 44 := by
  have hw : wav_size_of 64 = 10 := by decide
  obtain ⟨s0, hinit, _, _, _, hc, hl, _, hf⟩ :=
    play_wav_init_state (ramp 64) State.initial (ramp 64) 64
      (by rw [hw, ramp_length]; decide) (by rw [ramp_length]; decide)
  have hc1 : s0.sound_index = 44 := by rw [hc, hw]; decide
  have hl1 : s0.current_wav_size = 10 := by rw [hl, hw]
  exact ⟨s0, _, hinit,
    data_handler_last _ s0 _ _ (by decide) (by rw [hc1, hl1]; decide) hf,
    hf, rfl, hl1, hc1⟩

/-- C4 (counterexample): on the 8444-byte test asset (limit 4200) the first
notification refills a buffer and hands buffer 1 over; the second one is the
first to find the cursor at the limit, hands off nothing, and the flag is
already true when it returns. -/
theorem drain_step_counterexample :
    ∃ s0 s1 s2, play_wav_init (ramp 8444) State.initial (ramp 8444) 8444
        = some (s0, 0, I2S_DATA_BLOCK_WORDS) ∧
      data_handler (ramp 8444) s0 (some 0) NRFX_I2S_STATUS_NEXT_BUFFERS_NEEDED
        = some (s1, some 1) ∧
      s0.sound_index < s0.current_wav_size ∧
      s1.last_block_sent = false ∧
      s1.current_wav_size ≤ s1.sound_index ∧
      data_handler (ramp 8444) s1 (some 1) NRFX_I2S_STATUS_NEXT_BUFFERS_NEEDED
        = some (s2, none) ∧
      s2.last_block_sent = true := by
  have hw : wav_size_of 8444 = 4200 := by decide
  obtain ⟨s0, hinit, _, _, _, hc, hl, hb, hf⟩ :=
    play_wav_init_state (ramp 8444) State.initial (ramp 8444) 8444
      (by rw [hw, ramp_length]; decide) (by rw [ramp_length]; decide)
  have hc0 : s0.sound_index = 4140 := by rw [hc, hw]; decide
  have hl0 : s0.current_wav_size = 4200 := by rw [hl, hw]
  have h1 := data_handler_refill (ramp 8444) s0 0 NRFX_I2S_STATUS_NEXT_BUFFERS_NEEDED
    (by decide) (by rw [hc0, hl0]; omega) (by rw [hl0, ramp_length]; decide)
    (by rw [ramp_length]; decide)
  have hn : next_index s0 = 1 := by
    apply Fin.ext
    simp [next_index, hb]
  rw [hn] at h1
  refine ⟨s0, _, _, hinit, h1, by rw [hc0, hl0]; decide, hf, ?_,
    data_handler_last _ _ _ _ (by decide) ?_ hf, rfl⟩
  · show s0.current_wav_size ≤ cursor_after s0.current_wav_size s0.sound_index
    rw [hc0, hl0]; decide
  · show s0.current_wav_size ≤ cursor_after s0.current_wav_size s0.sound_index
    rw [hc0, hl0]; decide

/-- C4 (amended): in every session started by `play_wav` on an asset of at
least 44 bytes and for every sequence of next-buffer-needed notifications, as
long as the notifications have found the cursor below the limit each of them
has handed a buffer over and left the flag false; the first notification that
finds the cursor at or past the limit hands off nothing and itself sets the
Completion Flag, changing nothing else. -/
theorem completion_set_by_first_exhausted_notification (AUDIO16 : List Byte)
    (s : State) (data : List Byte) (ns : List Notification)
    (h44 : 44 ≤ AUDIO16.length) (hlen : AUDIO16.length < UINT32_MOD)
    (hbits : ∀ n ∈ ns, n.status &&& NRFX_I2S_STATUS_NEXT_BUFFERS_NEEDED ≠ 0) :
    ∃ s0 tr, play_wav_init AUDIO16 s data AUDIO16.length
        = some (s0, 0, I2S_DATA_BLOCK_WORDS) ∧
      run_notifications AUDIO16 s0 ns = some tr ∧
      tr.length = ns.length ∧
      ∀ k r, tr[k]? = some r →
        (∀ j, j < k →
          (state_before s0 tr j).sound_index < (state_before s0 tr j).current_wav_size) →
        (∀ j rj, j < k → tr[j]? = some rj →
          rj.2 ≠ none ∧ rj.1.last_block_sent = false) ∧
        (state_before s0 tr k).last_block_sent = false ∧
        ((state_before s0 tr k).current_wav_size ≤ (state_before s0 tr k).sound_index →
          r = ({ state_before s0 tr k with last_block_sent := true }, none)) := by
  have hw := wav_size_of_eq AUDIO16.length h44 hlen
  have hsz : 2 * wav_size_of AUDIO16.length ≤ AUDIO16.length := by rw [hw]; omega
  obtain ⟨s0, hinit, _, _, _, _, hl, _, hf⟩ :=
    play_wav_init_state AUDIO16 s data AUDIO16.length hsz (Nat.le_of_lt hlen)
  obtain ⟨tr, hrun⟩ := run_notifications_total AUDIO16 (Nat.le_of_lt hlen) ns s0
    (by rw [hl]; exact hsz)
  refine ⟨s0, tr, hinit, hrun, (run_notifications_chain AUDIO16 ns s0 tr hrun).1, ?_⟩
  intro k r hr hlt
  have hk : k < tr.length := (List.getElem?_eq_some_iff.mp hr).1
  obtain ⟨hfk, hprev⟩ :=
    run_while_streaming AUDIO16 ns s0 tr hrun hf hbits k (by omega) hlt
  refine ⟨hprev, hfk, ?_⟩
  intro hex
  obtain ⟨n, r1, hn, hr1, hd, _⟩ := run_notifications_step AUDIO16 ns s0 tr hrun k hk
  rw [hr] at hr1
  simp only [Option.some.injEq] at hr1
  subst hr1
  have hbit := hbits n (List.getElem?_mem hn)
  rw [data_handler_last AUDIO16 _ n.p_released n.status hbit hex hfk] at hd
  simpa using hd.symm

/-- Witness of C4 (amended): the 8444-byte test asset and two notifications. -/
theorem completion_set_by_first_exhausted_notification_witness :
    ∃ s0 tr, play_wav_init (ramp 8444) State.initial (ramp 8444) (ramp 8444).length
        = some (s0, 0, I2S_DATA_BLOCK_WORDS) ∧
      run_notifications (ramp 8444) s0 [needed 0, needed 1] = some tr ∧
      tr.length = 2 := by
  obtain ⟨s0, tr, h0, h1, h2, _⟩ :=
    completion_set_by_first_exhausted_notification (ramp 8444) State.initial (ramp 8444)
      [needed 0, needed 1] (by rw [ramp_length]; decide) (by rw [ramp_length]; decide)
      (by decide)
  exact ⟨s0, tr, h0, h1, h2⟩

/-- C5 (counterexample): on the 10044-byte test asset (44 + 2 * 5000 bytes)
and five next-buffer-needed notifications, the second notification already
hands off nothing and sets the Completion Flag, and the fourth notification
does hand a buffer over with the flag set; the claim has the flag false until
the fifth notification and no handoff at the fourth. -/
theorem end_to_end_5000_counterexample :
    ∃ s0 tr r1 r3, play_wav_init (ramp 10044) State.initial (ramp 10044) 10044
        = some (s0, 0, I2S_DATA_BLOCK_WORDS) ∧
      run_notifications (ramp 10044) s0
        [needed 0, needed 1, needed 0, needed 1, needed 0] = some tr ∧
      tr[1]? = some r1 ∧ r1.2 = none ∧ r1.1.last_block_sent = true ∧
      tr[3]? = some r3 ∧ r3.2 ≠ none ∧ r3.1.last_block_sent = true := by
  have hw : wav_size_of 10044 = 5000 := by decide
  have hlen : (ramp 10044).length ≤ UINT32_MOD := by rw [ramp_length]; decide
  obtain ⟨s0, hinit, _, _, _, hc, hl, hb, hf⟩ :=
    play_wav_init_state (ramp 10044) State.initial (ramp 10044) 10044
      (by rw [hw, ramp_length]; decide) hlen
  have hc0 : s0.sound_index = 4140 := by rw [hc, hw]; decide
  have hl0 : s0.current_wav_size = 5000 := by rw [hl, hw]
  have hsz : 2 * s0.current_wav_size ≤ (ramp 10044).length := by
    rw [hl0, ramp_length]; decide
  obtain ⟨tr, hrun⟩ := run_notifications_total (ramp 10044) hlen
    [needed 0, needed 1, needed 0, needed 1, needed 0] s0 hsz
  have hlen5 : tr.length = 5 := (run_notifications_chain _ _ s0 tr hrun).1
  -- first notification: refill, cursor reaches the limit
  obtain ⟨n0, r0, hn0, _, hd0, hs1⟩ :=
    run_notifications_step _ _ s0 tr hrun 0 (by omega)
  simp only [List.getElem?_cons_zero, Option.some.injEq] at hn0
  subst hn0
  rw [show state_before s0 tr 0 = s0 from rfl,
    show (needed 0).p_released = some 0 from rfl,
    data_handler_refill (ramp 10044) s0 0 _ (by decide) (by rw [hc0, hl0]; omega) hsz hlen]
    at hd0
  simp only [Option.some.injEq] at hd0
  have hc1 : (state_before s0 tr 1).sound_index = 5000 := by
    rw [hs1, ← hd0]
    show cursor_after s0.current_wav_size s0.sound_index = 5000
    rw [hc0, hl0]; decide
  have hl1 : (state_before s0 tr 1).current_wav_size = 5000 := by
    rw [run_notifications_limit _ _ s0 tr hrun 1 (by omega), hl0]
  have hf1 : (state_before s0 tr 1).last_block_sent = false := by
    rw [hs1, ← hd0]; exact hf
  -- second notification: the flag is set
  obtain ⟨n1, r1, hn1, hr1, hd1, hs2⟩ :=
    run_notifications_step _ _ s0 tr hrun 1 (by omega)
  rw [data_handler_last (ramp 10044) _ n1.p_released n1.status
    (by
      simp only [List.getElem?_cons_succ, List.getElem?_cons_zero, Option.some.injEq] at hn1
      subst hn1; decide)
    (by rw [hc1, hl1]) hf1] at hd1
  simp only [Option.some.injEq] at hd1
  have hf2 : (state_before s0 tr (2 + 1)).last_block_sent = true := by
    apply run_flag_mono _ _ s0 tr hrun 2 _ 1 (by omega)
    rw [hs2, ← hd1]
  -- fourth notification: a handoff with the flag set
  obtain ⟨n3, r3, hn3, hr3, hd3, _⟩ :=
    run_notifications_step _ _ s0 tr hrun 3 (by omega)
  obtain ⟨s3, out3⟩ := r3
  obtain ⟨hout, hfl⟩ := data_handler_flag _ _ s3 _ _ out3 hd3
  refine ⟨s0, tr, r1, (s3, out3), hinit, hrun, hr1, by rw [← hd1], by rw [← hd1],
    hr3, ?_, hfl.mpr (Or.inl hf2)⟩
  intro ho
  rcases hout.mp ho with hb3 | ⟨_, hff⟩
  · simp only [List.getElem?_cons_succ, List.getElem?_cons_zero, Option.some.injEq] at hn3
    subst hn3
    exact absurd hb3 (by decide)
  · rw [hf2] at hff
    exact absurd hff (by decide)

/-- C5 (amended): for every source of 44 + 2 * 5000 bytes, `play_wav` fills
buffer 0 and then buffer 1 with 2048 consecutive real samples each, starting
at the cursor `c0` it begins with, and starts the driver with buffer 0; the
first next-buffer-needed notification that releases a non-null buffer refills
that buffer with the remaining real samples up to the limit 5000 followed by
zero words, moves the cursor to 5000 and hands buffer 1 over; the second such
notification hands off nothing, changes no buffer and sets the Completion
Flag. -/
theorem end_to_end_5000 (AUDIO16 : List Byte) (s : State) (data : List Byte)
    (b1 b2 : Fin 2) (status1 status2 : Nat)
    (hA : AUDIO16.length = 44 + 2 * 5000)
    (hbit1 : status1 &&& NRFX_I2S_STATUS_NEXT_BUFFERS_NEEDED ≠ 0)
    (hbit2 : status2 &&& NRFX_I2S_STATUS_NEXT_BUFFERS_NEEDED ≠ 0) :
    ∃ c0 s0 s1 s2,
      play_wav_init AUDIO16 s data AUDIO16.length = some (s0, 0, I2S_DATA_BLOCK_WORDS) ∧
      s0.current_wav_size = 5000 ∧
      s0.sound_index = c0 + 2 * I2S_DATA_BLOCK_WORDS ∧
      s0.sound_index < 5000 ∧
      s0.last_block_sent = false ∧
      (∀ i, i < I2S_DATA_BLOCK_WORDS →
        (s0.m_buffer_tx 0).read i = sample16 AUDIO16 (c0 + i)) ∧
      (∀ i, i < I2S_DATA_BLOCK_WORDS →
        (s0.m_buffer_tx 1).read i = sample16 AUDIO16 (c0 + I2S_DATA_BLOCK_WORDS + i)) ∧
      data_handler AUDIO16 s0 (some b1) status1 = some (s1, some 1) ∧
      (∀ i, i < I2S_DATA_BLOCK_WORDS →
        (s1.m_buffer_tx b1).read i =
          if c0 + 2 * I2S_DATA_BLOCK_WORDS + i < 5000
          then sample16 AUDIO16 (c0 + 2 * I2S_DATA_BLOCK_WORDS + i) else 0) ∧
      s1.sound_index = 5000 ∧
      s1.last_block_sent = false ∧
      data_handler AUDIO16 s1 (some b2) status2 = some (s2, none) ∧
      s2.last_block_sent = true ∧
      s2.m_buffer_tx = s1.m_buffer_tx ∧
      s2.sound_index = 5000 := by
  have hw : wav_size_of AUDIO16.length = 5000 := by rw [hA]; decide
  have hlen : AUDIO16.length ≤ UINT32_MOD := by rw [hA]; decide
  obtain ⟨s0, hinit, h0, h1, _, hc, hl, hb, hf⟩ :=
    play_wav_init_state AUDIO16 s data AUDIO16.length (by rw [hw, hA]; decide) hlen
  rw [hw] at h0 h1 hc hl
  have hca : cursor_after 5000 44 = 2092 := by decide
  have hcb : cursor_after 5000 2092 = 4140 := by decide
  have hcc : cursor_after 5000 4140 = 5000 := by decide
  rw [hca] at h1 hc
  rw [hcb] at hc
  have hN : I2S_DATA_BLOCK_WORDS = 2048 := rfl
  have hsz : 2 * s0.current_wav_size ≤ AUDIO16.length := by rw [hl, hA]; decide
  have hstep := data_handler_refill AUDIO16 s0 b1 status1 hbit1
    (by rw [hc, hl]; omega) hsz hlen
  have hn : next_index s0 = 1 := by
    apply Fin.ext
    simp [next_index, hb]
  rw [hn, hc, hl, hcc] at hstep
  refine ⟨44, s0, _, _, hinit, hl, by rw [hc, hN], by rw [hc]; decide, hf, ?_, ?_, hstep,
    ?_, rfl, hf, data_handler_last AUDIO16 _ (some b2) status2 hbit2 ?_ hf, rfl, rfl, rfl⟩
  · intro i hi
    rw [h0, encoded_block_read _ _ _ _ hi, encoded_word, if_pos (by rw [hN] at hi; omega)]
  · intro i hi
    rw [h1, encoded_block_read _ _ _ _ hi, encoded_word, if_pos (by rw [hN] at hi; omega), hN]
  · intro i hi
    show (Function.update s0.m_buffer_tx b1 (encoded_block AUDIO16 5000 4140) b1).read i = _
    rw [Function.update_same, encoded_block_read _ _ _ _ hi, encoded_word, hN]
  · exact Nat.le_refl 5000

/-- Witness of C5 (amended) on the 10044-byte test asset. -/
theorem end_to_end_5000_witness :
    ∃ s0 s1 s2,
      play_wav_init (ramp 10044) State.initial (ramp 10044) (ramp 10044).length
        = some (s0, 0, I2S_DATA_BLOCK_WORDS) ∧
      data_handler (ramp 10044) s0 (some 0) NRFX_I2S_STATUS_NEXT_BUFFERS_NEEDED
        = some (s1, some 1) ∧
      data_handler (ramp 10044) s1 (some 1) NRFX_I2S_STATUS_NEXT_BUFFERS_NEEDED
        = some (s2, none) ∧
      s2.last_block_sent = true := by
  obtain ⟨_, s0, s1, s2, h0, _, _, _, _, _, _, h1, _, _, _, h2, h3, _⟩ :=
    end_to_end_5000 (ramp 10044) State.initial (ramp 10044) 0 1
      NRFX_I2S_STATUS_NEXT_BUFFERS_NEEDED NRFX_I2S_STATUS_NEXT_BUFFERS_NEEDED
      (by rw [ramp_length]) (by decide) (by decide)
  exact ⟨s0, s1, s2, h0, h1, h2, h3⟩

/-! ## Claims about the event handler -/

/-- C6 (counterexample): in the state the C initialisers leave, with the
Completion Flag already true, a notification with the next-buffers-needed bit
set that releases buffer 0 is not a no-op: it records buffer 0 as the block
to fill, switches `buffer_index` from 0 to 1 and hands buffer 1 over. -/
theorem handler_after_completion_counterexample :
    ∃ s1, data_handler (ramp 44) { State.initial with last_block_sent := true } (some 0)
        NRFX_I2S_STATUS_NEXT_BUFFERS_NEEDED = some (s1, some 1) ∧
      s1.buffer_index = 1 ∧
      s1.mp_block_to_fill = some 0 ∧
      State.initial.buffer_index = 0 ∧
      State.initial.mp_block_to_fill = none := by
  have h := data_handler_refill (ramp 44) { State.initial with last_block_sent := true } 0
    NRFX_I2S_STATUS_NEXT_BUFFERS_NEEDED (by decide) (by decide) (by decide)
    (by rw [ramp_length]; decide)
  exact ⟨_, h, rfl, rfl, rfl, rfl⟩

/-- C6 (amended): in every state in which the Completion Flag is already true
the handler keeps the flag true and the limit unchanged; it is a no-op (no
global changes, no handoff) when the next-buffers-needed bit of the status is
clear; when the bit is set it switches `buffer_index` to
`(buffer_index + 1) % 2` and hands that buffer over, after refilling the
released buffer through the encoder when that buffer is non-null (a null
release leaves both buffers, the cursor and `mp_block_to_fill` alone). -/
theorem handler_after_completion (AUDIO16 : List Byte) (s : State)
    (p_released : Option (Fin 2)) (status : Nat)
    (hflag : s.last_block_sent = true)
    (hsz : 2 * s.current_wav_size ≤ AUDIO16.length)
    (hlen : AUDIO16.length < UINT32_MOD) :
    ∃ s1 out, data_handler AUDIO16 s p_released status = some (s1, out) ∧
      s1.last_block_sent = true ∧
      s1.current_wav_size = s.current_wav_size ∧
      (status &&& NRFX_I2S_STATUS_NEXT_BUFFERS_NEEDED = 0 → s1 = s ∧ out = none) ∧
      (status &&& NRFX_I2S_STATUS_NEXT_BUFFERS_NEEDED ≠ 0 →
        out = some (next_index s) ∧
        s1.buffer_index = (s.buffer_index + 1) % 2 ∧
        (p_released = none →
          s1.m_buffer_tx = s.m_buffer_tx ∧ s1.sound_index = s.sound_index ∧
          s1.mp_block_to_fill = s.mp_block_to_fill) ∧
        (∀ b, p_released = some b →
          prepare_tx_data AUDIO16 { s with mp_block_to_fill := some b } b
            = some { s1 with buffer_index := s.buffer_index })) := by
  by_cases hbit : status &&& NRFX_I2S_STATUS_NEXT_BUFFERS_NEEDED = 0
  · exact ⟨s, none, data_handler_ignored AUDIO16 s p_released status hbit, hflag, rfl,
      fun _ => ⟨rfl, rfl⟩, fun h => absurd hbit h⟩
  · have hgo : ¬ (s.current_wav_size ≤ s.sound_index ∧ s.last_block_sent = false) := by
      rw [hflag]
      simp
    cases p_released with
    | none =>
      refine ⟨_, _, data_handler_null AUDIO16 s status hbit hgo, hflag, rfl,
        fun h => absurd h hbit, fun _ => ⟨rfl, rfl, fun _ => ⟨rfl, rfl, rfl⟩, ?_⟩⟩
      intro b hb
      exact absurd hb (by simp)
    | some b0 =>
      refine ⟨_, _, data_handler_refill AUDIO16 s b0 status hbit hgo hsz (Nat.le_of_lt hlen),
        hflag, rfl, fun h => absurd h hbit, fun _ => ⟨rfl, rfl, ?_, ?_⟩⟩
      · intro hb
        exact absurd hb (by simp)
      · intro b hb
        simp only [Option.some.injEq] at hb
        subst hb
        exact prepare_tx_data_eq AUDIO16 { s with mp_block_to_fill := some b0 } b0 hsz
          (Nat.le_of_lt hlen)

/-- Witness of C6 (amended): the initial globals with the flag set. -/
theorem handler_after_completion_witness :
    ∃ s1 out, data_handler (ramp 44) { State.initial with last_block_sent := true } (some 0)
        NRFX_I2S_STATUS_NEXT_BUFFERS_NEEDED = some (s1, out) ∧
      s1.last_block_sent = true := by
  obtain ⟨s1, out, h, hf, _⟩ :=
    handler_after_completion (ramp 44) { State.initial with last_block_sent := true }
      (some 0) NRFX_I2S_STATUS_NEXT_BUFFERS_NEEDED rfl (by decide)
      (by rw [ramp_length]; decide)
  exact ⟨s1, out, h, hf⟩

/-- C7: for every sequence of notifications (any status word, any released
buffer) that follows `play_wav` on an asset of at least 44 bytes, the buffer
indices given to the driver, beginning with the index 0 passed to start, are
0, 1, 0, 1, ...: entry `k` of the sequence is `k % 2`.  Every handoff made by
the handler uses `(buffer_index + 1) % 2` and stores it in `buffer_index`, and
a notification that hands off nothing leaves `buffer_index` unchanged. -/
theorem handoff_indices_alternate (AUDIO16 : List Byte) (s : State) (data : List Byte)
    (ns : List Notification)
    (h44 : 44 ≤ AUDIO16.length) (hlen : AUDIO16.length < UINT32_MOD) :
    ∃ s0 first tr, play_wav_init AUDIO16 s data AUDIO16.length
        = some (s0, first, I2S_DATA_BLOCK_WORDS) ∧
      run_notifications AUDIO16 s0 ns = some tr ∧
      (∀ k b, (handoffs first tr)[k]? = some b → b.val = k % 2) ∧
      (∀ k r, tr[k]? = some r →
        (r.2 = none → r.1.buffer_index = (state_before s0 tr k).buffer_index) ∧
        (∀ b, r.2 = some b →
          b.val = ((state_before s0 tr k).buffer_index + 1) % 2 ∧
          r.1.buffer_index = b.val)) := by
  have hw := wav_size_of_eq AUDIO16.length h44 hlen
  have hsz : 2 * wav_size_of AUDIO16.length ≤ AUDIO16.length := by rw [hw]; omega
  obtain ⟨s0, hinit, _, _, _, _, hl, hb, _⟩ :=
    play_wav_init_state AUDIO16 s data AUDIO16.length hsz (Nat.le_of_lt hlen)
  obtain ⟨tr, hrun⟩ := run_notifications_total AUDIO16 (Nat.le_of_lt hlen) ns s0
    (by rw [hl]; exact hsz)
  refine ⟨s0, 0, tr, hinit, hrun, ?_, ?_⟩
  · intro k b hkb
    cases k with
    | zero =>
      simp only [handoffs, List.getElem?_cons_zero, Option.some.injEq] at hkb
      subst hkb
      rfl
    | succ j =>
      simp only [handoffs, List.getElem?_cons_succ] at hkb
      have := run_handoffs_alternate AUDIO16 ns s0 tr hrun j b hkb
      rw [hb] at this
      omega
  · intro k r hr
    have hk : k < tr.length := (List.getElem?_eq_some_iff.mp hr).1
    obtain ⟨n, r1, _, hr1, hd, _⟩ := run_notifications_step AUDIO16 ns s0 tr hrun k hk
    rw [hr] at hr1
    simp only [Option.some.injEq] at hr1
    subst hr1
    obtain ⟨s1, out⟩ := r
    obtain ⟨_, _, hnone, hsome⟩ := data_handler_frame AUDIO16 _ s1 _ _ out hd
    refine ⟨hnone, ?_⟩
    intro b hbo
    obtain ⟨h1, h2, _⟩ := hsome b hbo
    rw [h1]
    exact ⟨rfl, h2⟩

/-- Witness of C7: the 8444-byte test asset and four notifications, one of them
with the status bit clear and one with a null released buffer. -/
theorem handoff_indices_alternate_witness :
    ∃ s0 first tr, play_wav_init (ramp 8444) State.initial (ramp 8444) (ramp 8444).length
        = some (s0, first, I2S_DATA_BLOCK_WORDS) ∧
      run_notifications (ramp 8444) s0
        [⟨none, 1⟩, ⟨some 0, 0⟩, needed 0, needed 1] = some tr ∧
      ∀ k b, (handoffs first tr)[k]? = some b → b.val = k % 2 := by
  obtain ⟨s0, first, tr, h0, h1, h2, _⟩ :=
    handoff_indices_alternate (ramp 8444) State.initial (ramp 8444)
      [⟨none, 1⟩, ⟨some 0, 0⟩, needed 0, needed 1]
      (by rw [ramp_length]; decide) (by rw [ramp_length]; decide)
  exact ⟨s0, first, tr, h0, h1, h2⟩

/-- C8 (counterexample): after `play_wav` on the 8444-byte test asset data
remains (cursor 4140, limit 4200); a next-buffer-needed notification that
releases buffer 0 encodes fresh data into buffer 0 but hands buffer 1 to the
driver, and buffer 1 is not touched by this notification. -/
theorem handed_buffer_counterexample :
    ∃ s0 s1, play_wav_init (ramp 8444) State.initial (ramp 8444) 8444
        = some (s0, 0, I2S_DATA_BLOCK_WORDS) ∧
      s0.sound_index < s0.current_wav_size ∧
      data_handler (ramp 8444) s0 (some 0) NRFX_I2S_STATUS_NEXT_BUFFERS_NEEDED
        = some (s1, some 1) ∧
      s1.mp_block_to_fill = some 0 ∧
      s1.m_buffer_tx 1 = s0.m_buffer_tx 1 := by
  have hw : wav_size_of 8444 = 4200 := by decide
  obtain ⟨s0, hinit, _, _, _, hc, hl, hb, hf⟩ :=
    play_wav_init_state (ramp 8444) State.initial (ramp 8444) 8444
      (by rw [hw, ramp_length]; decide) (by rw [ramp_length]; decide)
  have hc0 : s0.sound_index = 4140 := by rw [hc, hw]; decide
  have hl0 : s0.current_wav_size = 4200 := by rw [hl, hw]
  have h1 := data_handler_refill (ramp 8444) s0 0 NRFX_I2S_STATUS_NEXT_BUFFERS_NEEDED
    (by decide) (by rw [hc0, hl0]; omega) (by rw [hl0, ramp_length]; decide)
    (by rw [ramp_length]; decide)
  have hn : next_index s0 = 1 := by
    apply Fin.ext
    simp [next_index, hb]
  rw [hn] at h1
  refine ⟨s0, _, hinit, by rw [hc0, hl0]; decide, h1, rfl, ?_⟩
  have hne : (1 : Fin 2) ≠ 0 := by decide
  exact Function.update_noteq hne
    (encoded_block (ramp 8444) s0.current_wav_size s0.sound_index) s0.m_buffer_tx

/-- C8 (amended): for every next-buffer-needed notification handled while data
remains, the handler encodes fresh data into the released buffer when that
buffer is non-null (and into no buffer when it is null), and the buffer it
hands to the driver is `m_buffer_tx[(buffer_index + 1) % 2]`; the buffer
handed over is the one just filled exactly when the released buffer is that
buffer. -/
theorem handed_buffer_is_next_index (AUDIO16 : List Byte) (s : State)
    (p_released : Option (Fin 2)) (status : Nat)
    (hbit : status &&& NRFX_I2S_STATUS_NEXT_BUFFERS_NEEDED ≠ 0)
    (hdata : s.sound_index < s.current_wav_size)
    (hsz : 2 * s.current_wav_size ≤ AUDIO16.length)
    (hlen : AUDIO16.length < UINT32_MOD) :
    ∃ s1, data_handler AUDIO16 s p_released status = some (s1, some (next_index s)) ∧
      (next_index s).val = (s.buffer_index + 1) % 2 ∧
      (p_released = none →
        s1.m_buffer_tx = s.m_buffer_tx ∧ s1.mp_block_to_fill = s.mp_block_to_fill) ∧
      (∀ b, p_released = some b →
        s1.mp_block_to_fill = some b ∧
        s1.m_buffer_tx b = encoded_block AUDIO16 s.current_wav_size s.sound_index ∧
        (∀ b1, b1 ≠ b → s1.m_buffer_tx b1 = s.m_buffer_tx b1) ∧
        (s1.mp_block_to_fill = some (next_index s) ↔ b = next_index s)) := by
  have hgo : ¬ (s.current_wav_size ≤ s.sound_index ∧ s.last_block_sent = false) := by
    intro h
    omega
  cases p_released with
  | none =>
    refine ⟨_, data_handler_null AUDIO16 s status hbit hgo, rfl, fun _ => ⟨rfl, rfl⟩, ?_⟩
    intro b hb
    exact absurd hb (by simp)
  | some b0 =>
    refine ⟨_, data_handler_refill AUDIO16 s b0 status hbit hgo hsz (Nat.le_of_lt hlen),
      rfl, fun hb => absurd hb (by simp), ?_⟩
    intro b hb
    simp only [Option.some.injEq] at hb
    subst hb
    refine ⟨rfl, ?_, ?_, ?_⟩
    · show Function.update s.m_buffer_tx b0 _ b0 = _
      rw [Function.update_same]
    · intro b1 hb1
      show Function.update s.m_buffer_tx b0 _ b1 = _
      rw [Function.update_noteq hb1]
    · show some b0 = some (next_index s) ↔ b0 = next_index s
      simp

/-- Witness of C8 (amended): the initial globals with limit 50 on a 100-byte
asset, releasing buffer 1. -/
theorem handed_buffer_is_next_index_witness :
    ∃ s1, data_handler (ramp 100) { State.initial with current_wav_size := 50 } (some 1)
        NRFX_I2S_STATUS_NEXT_BUFFERS_NEEDED
        = some (s1, some (next_index { State.initial with current_wav_size := 50 })) ∧
      (next_index { State.initial with current_wav_size := 50 }).val = 1 := by
  obtain ⟨s1, h, hv, _⟩ :=
    handed_buffer_is_next_index (ramp 100) { State.initial with current_wav_size := 50 }
      (some 1) NRFX_I2S_STATUS_NEXT_BUFFERS_NEEDED (by decide) (by decide) (by decide)
      (by rw [ramp_length]; decide)
  exact ⟨s1, h, hv⟩

/-- C9: after the initialisation done by `play_wav` (asset of at least 44
bytes) the Completion Flag is false; over every sequence of notifications no
notification that finds it true leaves it false, and at most one notification
changes it; a further `play_wav` call started from the state the run ends in
resets it to false. -/
theorem completion_flag_set_at_most_once (AUDIO16 : List Byte) (s : State)
    (data : List Byte) (ns : List Notification)
    (h44 : 44 ≤ AUDIO16.length) (hlen : AUDIO16.length < UINT32_MOD) :
    ∃ s0 tr, play_wav_init AUDIO16 s data AUDIO16.length
        = some (s0, 0, I2S_DATA_BLOCK_WORDS) ∧
      s0.last_block_sent = false ∧
      run_notifications AUDIO16 s0 ns = some tr ∧
      (∀ k r, tr[k]? = some r →
        (state_before s0 tr k).last_block_sent = true → r.1.last_block_sent = true) ∧
      (∀ j k rj rk, tr[j]? = some rj → tr[k]? = some rk →
        rj.1.last_block_sent ≠ (state_before s0 tr j).last_block_sent →
        rk.1.last_block_sent ≠ (state_before s0 tr k).last_block_sent → j = k) ∧
      (∀ data2, ∃ s2,
        play_wav_init AUDIO16 (state_before s0 tr tr.length) data2 AUDIO16.length
          = some (s2, 0, I2S_DATA_BLOCK_WORDS) ∧
        s2.last_block_sent = false) := by
  have hw := wav_size_of_eq AUDIO16.length h44 hlen
  have hsz : 2 * wav_size_of AUDIO16.length ≤ AUDIO16.length := by rw [hw]; omega
  obtain ⟨s0, hinit, _, _, _, _, hl, _, hf⟩ :=
    play_wav_init_state AUDIO16 s data AUDIO16.length hsz (Nat.le_of_lt hlen)
  obtain ⟨tr, hrun⟩ := run_notifications_total AUDIO16 (Nat.le_of_lt hlen) ns s0
    (by rw [hl]; exact hsz)
  have hkeep : ∀ k r, tr[k]? = some r →
      (state_before s0 tr k).last_block_sent = true →
      r.1.last_block_sent = true ∧ state_before s0 tr (k + 1) = r.1 := by
    intro k r hr hb
    have hk : k < tr.length := (List.getElem?_eq_some_iff.mp hr).1
    obtain ⟨n, r1, _, hr1, hd, hs⟩ := run_notifications_step AUDIO16 ns s0 tr hrun k hk
    rw [hr] at hr1
    simp only [Option.some.injEq] at hr1
    subst hr1
    obtain ⟨s1, out⟩ := r
    exact ⟨(data_handler_frame AUDIO16 _ s1 _ _ out hd).2.1 hb, hs⟩
  have hnext : ∀ k r, tr[k]? = some r → state_before s0 tr (k + 1) = r.1 := by
    intro k r hr
    simp [state_before, hr]
  have hone : ∀ j k rj rk, j < k → tr[j]? = some rj → tr[k]? = some rk →
      rj.1.last_block_sent ≠ (state_before s0 tr j).last_block_sent →
      rk.1.last_block_sent ≠ (state_before s0 tr k).last_block_sent → False := by
    intro j k rj rk hjk hj hk hcj hck
    have hkl : k < tr.length := (List.getElem?_eq_some_iff.mp hk).1
    have hj1 : rj.1.last_block_sent = true := by
      cases hb : (state_before s0 tr j).last_block_sent with
      | true => exact (hkeep j rj hj hb).1
      | false =>
        rw [hb] at hcj
        simpa using hcj
    have hj2 : (state_before s0 tr (j + 1)).last_block_sent = true := by
      rw [hnext j rj hj]; exact hj1
    have hk1 := run_flag_mono AUDIO16 ns s0 tr hrun (j + 1) hj2 (k - (j + 1)) (by omega)
    rw [show j + 1 + (k - (j + 1)) = k by omega] at hk1
    have hk2 := (hkeep k rk hk hk1).1
    rw [hk1, hk2] at hck
    exact hck rfl
  refine ⟨s0, tr, hinit, hf, hrun, fun k r hr hb => (hkeep k r hr hb).1, ?_, ?_⟩
  · intro j k rj rk hj hk hcj hck
    rcases Nat.lt_trichotomy j k with h | h | h
    · exact (hone j k rj rk h hj hk hcj hck).elim
    · exact h
    · exact (hone k j rk rj h hk hj hck hcj).elim
  · intro data2
    obtain ⟨s2, h2, _, _, _, _, _, _, hf2⟩ :=
      play_wav_init_state AUDIO16 (state_before s0 tr tr.length) data2 AUDIO16.length hsz
        (Nat.le_of_lt hlen)
    exact ⟨s2, h2, hf2⟩

/-- Witness of C9: the 8444-byte test asset and three notifications. -/
theorem completion_flag_set_at_most_once_witness :
    ∃ s0 tr, play_wav_init (ramp 8444) State.initial (ramp 8444) (ramp 8444).length
        = some (s0, 0, I2S_DATA_BLOCK_WORDS) ∧
      s0.last_block_sent = false ∧
      run_notifications (ramp 8444) s0 [needed 0, needed 1, needed 0] = some tr := by
  obtain ⟨s0, tr, h0, h1, h2, _⟩ :=
    completion_flag_set_at_most_once (ramp 8444) State.initial (ramp 8444)
      [needed 0, needed 1, needed 0]
      (by rw [ramp_length]; decide) (by rw [ramp_length]; decide)
  exact ⟨s0, tr, h0, h1, h2⟩

/-- C10: for every source of length `L >= 44` (fitting the 32-bit address
space) the limit computed by `play_wav` is `(L - 44) / 2`, and whenever the
guard `sound_index < limit` holds the two byte offsets `2 * sound_index` and
`2 * sound_index + 1` are computed without 32-bit wraparound and lie below
`L`, so the indexing expression succeeds; consequently the initialisation and
every run of notifications of a playback session return without an
out-of-range read. -/
theorem encoder_reads_in_range (AUDIO16 : List Byte) (sound_index : Nat)
    (s : State) (data : List Byte) (ns : List Notification)
    (h44 : 44 ≤ AUDIO16.length) (hlen : AUDIO16.length < UINT32_MOD)
    (hguard : sound_index < wav_size_of AUDIO16.length) :
    wav_size_of AUDIO16.length = (AUDIO16.length - 44) / 2 ∧
    sound_index * 2 + 1 < UINT32_MOD ∧
    (sound_index * 2 + 0) % UINT32_MOD = 2 * sound_index ∧
    (sound_index * 2 + 1) % UINT32_MOD = 2 * sound_index + 1 ∧
    2 * sound_index < AUDIO16.length ∧
    2 * sound_index + 1 < AUDIO16.length ∧
    (∃ w, sample_l AUDIO16 sound_index = some w) ∧
    ∃ s0 tr, play_wav_init AUDIO16 s data AUDIO16.length
        = some (s0, 0, I2S_DATA_BLOCK_WORDS) ∧
      run_notifications AUDIO16 s0 ns = some tr := by
  have hw := wav_size_of_eq AUDIO16.length h44 hlen
  have hsz : 2 * wav_size_of AUDIO16.length ≤ AUDIO16.length := by rw [hw]; omega
  have hin : 2 * sound_index + 1 < AUDIO16.length := by omega
  obtain ⟨s0, hinit, _, _, _, _, hl, _, _⟩ :=
    play_wav_init_state AUDIO16 s data AUDIO16.length hsz (Nat.le_of_lt hlen)
  obtain ⟨tr, hrun⟩ := run_notifications_total AUDIO16 (Nat.le_of_lt hlen) ns s0
    (by rw [hl]; exact hsz)
  refine ⟨hw, by omega, ?_, ?_, by omega, hin,
    ⟨_, sample_l_eq AUDIO16 sound_index hin (Nat.le_of_lt hlen)⟩, s0, tr, hinit, hrun⟩
  · rw [Nat.mod_eq_of_lt (by omega)]; omega
  · rw [Nat.mod_eq_of_lt (by omega)]; omega

/-- Witness of C10: cursor 44 on the 8444-byte test asset. -/
theorem encoder_reads_in_range_witness :
    wav_size_of (ramp 8444).length = ((ramp 8444).length - 44) / 2 ∧
    44 * 2 + 1 < UINT32_MOD ∧
    2 * 44 + 1 < (ramp 8444).length := by
  obtain ⟨h0, h1, _, _, _, h2, _⟩ :=
    encoder_reads_in_range (ramp 8444) 44 State.initial (ramp 8444) [needed 0]
      (by rw [ramp_length]; decide) (by rw [ramp_length]; decide)
      (by rw [ramp_length]; decide)
  exact ⟨h0, h1, h2⟩

/-! ## Padding, status bits and initialisation -/

theorem Block.zero_read (i : Nat) : Block.zero.read i = 0 := by
  simp only [Block.zero, Block.read, List.getD_eq_getElem?_getD, List.getElem?_replicate]
  split <;> rfl

/-- The loop of the encoder once the cursor has reached the limit: no read, the
slots are zeroed and the cursor stays. -/
theorem prepare_tx_loop_exhausted (AUDIO16 : List Byte) (limit c : Nat)
    (hex : limit ≤ c) :
    ∀ (n i : Nat) (p_block : Block), i + n ≤ I2S_DATA_BLOCK_WORDS →
      ∃ blk : Block,
        prepare_tx_loop AUDIO16 limit n i p_block c = some (blk, c) ∧
        ∀ j, blk.read j = if i ≤ j ∧ j < i + n then 0 else p_block.read j := by
  intro n
  induction n with
  | zero =>
    intro i p_block _
    refine ⟨p_block, by simp [prepare_tx_loop], ?_⟩
    intro j
    have : ¬ (i ≤ j ∧ j < i + 0) := by omega
    rw [if_neg this]
  | succ n ih =>
    intro i p_block hin
    have hc : ¬ c < limit := by omega
    obtain ⟨blk, hrun, hread⟩ := ih (i + 1) (p_block.write i 0) (by omega)
    refine ⟨blk, by simp only [prepare_tx_loop, hc, if_false, hrun], ?_⟩
    intro j
    rw [hread j, Block.read_write]
    by_cases h1 : i + 1 ≤ j ∧ j < i + 1 + n
    · have h2 : i ≤ j ∧ j < i + (n + 1) := by omega
      rw [if_pos h1, if_pos h2]
    · by_cases h4 : j = i
      · subst h4
        have h5 : j ≤ j ∧ j < j + (n + 1) := by omega
        have h6 : j < I2S_DATA_BLOCK_WORDS := by omega
        simp [h1, h5, h6]
      · have h5 : ¬ (i ≤ j ∧ j < i + (n + 1)) := by omega
        simp [h1, h4, h5]

/-- Closed form of one encoder call once the cursor has reached the limit,
whatever the asset. -/
theorem prepare_tx_data_exhausted (AUDIO16 : List Byte) (s : State) (b : Fin 2)
    (hex : s.current_wav_size ≤ s.sound_index) :
    prepare_tx_data AUDIO16 s b
      = some { s with m_buffer_tx := Function.update s.m_buffer_tx b Block.zero } := by
  obtain ⟨blk, hrun, hread⟩ :=
    prepare_tx_loop_exhausted AUDIO16 s.current_wav_size s.sound_index hex
      I2S_DATA_BLOCK_WORDS 0 (s.m_buffer_tx b) (by omega)
  have hblk : blk = Block.zero := by
    apply Block.ext_read
    intro i hi
    rw [hread i, Block.zero_read]
    have : 0 ≤ i ∧ i < 0 + I2S_DATA_BLOCK_WORDS := by omega
    rw [if_pos this]
  simp only [prepare_tx_data, hrun, hblk]

/-- Successive encoder calls once the cursor has reached the limit. -/
theorem prepare_tx_data_seq_exhausted (AUDIO16 : List Byte) :
    ∀ (bs : List (Fin 2)) (s : State), s.current_wav_size ≤ s.sound_index →
      ∃ s2, prepare_tx_data_seq AUDIO16 s bs = some s2 ∧
        s2.sound_index = s.sound_index ∧
        s2.current_wav_size = s.current_wav_size ∧
        s2.mp_block_to_fill = s.mp_block_to_fill ∧
        s2.buffer_index = s.buffer_index ∧
        s2.last_block_sent = s.last_block_sent ∧
        (∀ b, b ∈ bs → s2.m_buffer_tx b = Block.zero) ∧
        (∀ b, b ∉ bs → s2.m_buffer_tx b = s.m_buffer_tx b) := by
  intro bs
  induction bs with
  | nil =>
    intro s _
    exact ⟨s, rfl, rfl, rfl, rfl, rfl, rfl, by simp, fun _ _ => rfl⟩
  | cons b0 bs ih =>
    intro s hex
    have h0 := prepare_tx_data_exhausted AUDIO16 s b0 hex
    obtain ⟨s2, hs2, h1, h2, h3, h4, h5, hin, hout⟩ :=
      ih { s with m_buffer_tx := Function.update s.m_buffer_tx b0 Block.zero } hex
    refine ⟨s2, ?_, h1, h2, h3, h4, h5, ?_, ?_⟩
    · rw [prepare_tx_data_seq, h0, Option.some_bind]
      exact hs2
    · intro b hb
      by_cases hbs : b ∈ bs
      · exact hin b hbs
      · have hb0 : b = b0 := by
          rcases List.mem_cons.mp hb with h | h
          · exact h
          · exact absurd h hbs
        rw [hout b hbs, hb0]
        exact Function.update_same b0 Block.zero s.m_buffer_tx
    · intro b hb
      have hb0 : b ≠ b0 := fun h => hb (by rw [h]; exact List.mem_cons_self b0 bs)
      have hbs : b ∉ bs := fun h => hb (List.mem_cons_of_mem b0 h)
      rw [hout b hbs]
      exact Function.update_noteq hb0 Block.zero s.m_buffer_tx

/-- C11: in every state whose cursor has reached the limit, one call of
`prepare_tx_data` on either buffer returns, writes zero to all 2048 slots of
that buffer and changes nothing else (the cursor in particular); a second call
on the same buffer changes nothing at all, and any sequence of further calls on
either buffer returns with the same cursor, every buffer it touched all zero
and every other buffer as it was. -/
theorem padding_idempotent (AUDIO16 : List Byte) (s : State)
    (hex : s.current_wav_size ≤ s.sound_index) :
    (∀ b, ∃ s1, prepare_tx_data AUDIO16 s b = some s1 ∧
      (∀ i, i < I2S_DATA_BLOCK_WORDS → (s1.m_buffer_tx b).read i = 0) ∧
      s1.sound_index = s.sound_index ∧
      s1.current_wav_size = s.current_wav_size ∧
      s1.mp_block_to_fill = s.mp_block_to_fill ∧
      s1.buffer_index = s.buffer_index ∧
      s1.last_block_sent = s.last_block_sent ∧
      (∀ b1, b1 ≠ b → s1.m_buffer_tx b1 = s.m_buffer_tx b1) ∧
      prepare_tx_data AUDIO16 s1 b = some s1) ∧
    (∀ bs, ∃ s2, prepare_tx_data_seq AUDIO16 s bs = some s2 ∧
      s2.sound_index = s.sound_index ∧
      (∀ b, b ∈ bs → ∀ i, i < I2S_DATA_BLOCK_WORDS → (s2.m_buffer_tx b).read i = 0) ∧
      (∀ b, b ∉ bs → s2.m_buffer_tx b = s.m_buffer_tx b)) := by
  constructor
  · intro b
    have h0 := prepare_tx_data_exhausted AUDIO16 s b hex
    have h1 := prepare_tx_data_exhausted AUDIO16
      { s with m_buffer_tx := Function.update s.m_buffer_tx b Block.zero } b hex
    refine ⟨_, h0, ?_, rfl, rfl, rfl, rfl, rfl, ?_, ?_⟩
    · intro i _
      show (Function.update s.m_buffer_tx b Block.zero b).read i = 0
      rw [Function.update_same, Block.zero_read]
    · intro b1 hb1
      exact Function.update_noteq hb1 Block.zero s.m_buffer_tx
    · rw [h1]
      simp only [Function.update_idem]
  · intro bs
    obtain ⟨s2, hs2, h1, _, _, _, _, hin, hout⟩ :=
      prepare_tx_data_seq_exhausted AUDIO16 bs s hex
    refine ⟨s2, hs2, h1, ?_, hout⟩
    intro b hb i _
    rw [hin b hb, Block.zero_read]

/-- Witness of C11: the globals as the C initialisers leave them (cursor 44,
limit 0), on the empty asset, three calls in a row. -/
theorem padding_idempotent_witness :
    ∃ s2, prepare_tx_data_seq [] State.initial [0, 1, 0] = some s2 ∧
      s2.sound_index = 44 ∧
      (s2.m_buffer_tx 1).read 2047 = 0 := by
  obtain ⟨s2, h, hc, hz, _⟩ := (padding_idempotent [] State.initial (by decide)).2 [0, 1, 0]
  exact ⟨s2, h, hc, hz 1 (by decide) 2047 (by decide)⟩

/-- C12: for every state and released buffer, a status word whose
next-buffers-needed bit is clear makes `data_handler` return the state
unchanged with no buffer handed over; and two status words that agree on that
bit give the same result (state and handoff), whatever their other bits. -/
theorem status_other_bits_ignored (AUDIO16 : List Byte) (s : State)
    (p_released : Option (Fin 2)) (status status1 status2 : Nat)
    (hclear : status &&& NRFX_I2S_STATUS_NEXT_BUFFERS_NEEDED = 0)
    (hagree : status1 &&& NRFX_I2S_STATUS_NEXT_BUFFERS_NEEDED
      = status2 &&& NRFX_I2S_STATUS_NEXT_BUFFERS_NEEDED) :
    data_handler AUDIO16 s p_released status = some (s, none) ∧
    data_handler AUDIO16 s p_released status1
      = data_handler AUDIO16 s p_released status2 := by
  refine ⟨data_handler_ignored AUDIO16 s p_released status hclear, ?_⟩
  unfold data_handler
  rw [hagree]

/-- Witness of C12: status words 2 (bit clear), 1 and 3 (bit set in both). -/
theorem status_other_bits_ignored_witness :
    data_handler (ramp 100) { State.initial with current_wav_size := 50 } (some 1) 2
      = some ({ State.initial with current_wav_size := 50 }, none) ∧
    data_handler (ramp 100) { State.initial with current_wav_size := 50 } (some 1) 1
      = data_handler (ramp 100) { State.initial with current_wav_size := 50 } (some 1) 3 :=
  status_other_bits_ignored (ramp 100) { State.initial with current_wav_size := 50 }
    (some 1) 2 1 3 (by decide) (by decide)

/-- C13: for every `wav_length >= 44` (a `uint32_t`, on an asset that holds at
least `wav_length` bytes) the initialisation of `play_wav` returns; it is the
encoder call on buffer 0 from the state with cursor 44, limit
`(wav_length - 44) / 2`, flag false and `buffer_index` 0, followed by the
encoder call on buffer 1 from the state the first call leaves (cursor where
buffer 0 stopped); the driver is started with buffer 0 and block size 2048. -/
theorem play_wav_init_steps (AUDIO16 : List Byte) (s : State) (data : List Byte)
    (wav_length : Nat)
    (h44 : 44 ≤ wav_length) (hle : wav_length ≤ AUDIO16.length)
    (hlen : AUDIO16.length < UINT32_MOD) :
    ∃ s1 s2,
      prepare_tx_data AUDIO16
        { s with
          mp_block_to_fill := none
          sound_index := 44
          current_wav_size := (wav_length - 44) / 2
          buffer_index := 0
          last_block_sent := false } 0 = some s1 ∧
      prepare_tx_data AUDIO16 s1 1 = some s2 ∧
      play_wav_init AUDIO16 s data wav_length = some (s2, 0, 2048) ∧
      s2.current_wav_size = (wav_length - 44) / 2 ∧
      s2.last_block_sent = false ∧
      s2.buffer_index = 0 ∧
      s2.mp_block_to_fill = none ∧
      s1.sound_index = 44 + min 2048 ((wav_length - 44) / 2 - 44) ∧
      s2.sound_index = s1.sound_index + min 2048 ((wav_length - 44) / 2 - s1.sound_index) ∧
      (∀ i, i < 2048 →
        (s2.m_buffer_tx 0).read i = encoded_word AUDIO16 ((wav_length - 44) / 2) 44 i) ∧
      (∀ i, i < 2048 →
        (s2.m_buffer_tx 1).read i
          = encoded_word AUDIO16 ((wav_length - 44) / 2) s1.sound_index i) := by
  have hw := wav_size_of_eq wav_length h44 (by omega)
  have hsz : 2 * ((wav_length - 44) / 2) ≤ AUDIO16.length := by omega
  have h0 := prepare_tx_data_eq AUDIO16
    { s with
      mp_block_to_fill := none
      sound_index := 44
      current_wav_size := (wav_length - 44) / 2
      buffer_index := 0
      last_block_sent := false } 0 hsz (Nat.le_of_lt hlen)
  have h1 := prepare_tx_data_eq AUDIO16
    { m_buffer_tx := Function.update s.m_buffer_tx 0
        (encoded_block AUDIO16 ((wav_length - 44) / 2) 44)
      mp_block_to_fill := none
      sound_index := cursor_after ((wav_length - 44) / 2) 44
      current_wav_size := (wav_length - 44) / 2
      buffer_index := 0
      last_block_sent := false } 1 hsz (Nat.le_of_lt hlen)
  have hinit := play_wav_init_eq AUDIO16 s data wav_length (by rw [hw]; exact hsz)
    (Nat.le_of_lt hlen)
  rw [hw] at hinit
  refine ⟨_, _, h0, h1, hinit, rfl, rfl, rfl, rfl, rfl, rfl, ?_, ?_⟩
  · intro i hi
    have hb := (read_after_init s.m_buffer_tx
      (encoded_block AUDIO16 ((wav_length - 44) / 2) 44)
      (encoded_block AUDIO16 ((wav_length - 44) / 2)
        (cursor_after ((wav_length - 44) / 2) 44))).1
    exact (congrArg (fun blk : Block => blk.read i) hb).trans
      (encoded_block_read _ _ _ _ hi)
  · intro i hi
    have hb := (read_after_init s.m_buffer_tx
      (encoded_block AUDIO16 ((wav_length - 44) / 2) 44)
      (encoded_block AUDIO16 ((wav_length - 44) / 2)
        (cursor_after ((wav_length - 44) / 2) 44))).2
    exact (congrArg (fun blk : Block => blk.read i) hb).trans
      (encoded_block_read _ _ _ _ hi)

/-- Witness of C13 on the 8444-byte test asset. -/
theorem play_wav_init_steps_witness :
    ∃ s2, play_wav_init (ramp 8444) State.initial (ramp 8444) 8444 = some (s2, 0, 2048) ∧
      s2.current_wav_size = (8444 - 44) / 2 ∧
      s2.last_block_sent = false ∧
      s2.buffer_index = 0 := by
  obtain ⟨_, s2, _, _, h, hl, hf, hb, _⟩ :=
    play_wav_init_steps (ramp 8444) State.initial (ramp 8444) 8444 (by decide)
      (by rw [ramp_length]) (by rw [ramp_length]; decide)
  exact ⟨s2, h, hl, hf, hb⟩

/-- C15: in every state with the Completion Flag false and the cursor at or
past the limit, a next-buffer-needed notification returns, whatever buffer it
releases, with no buffer handed to the driver; both buffers, `sound_index`,
`buffer_index`, `mp_block_to_fill` and the limit are unchanged (the flag is
the only global that changes). -/
theorem exhausted_notification_frame (AUDIO16 : List Byte) (s : State)
    (p_released : Option (Fin 2)) (status : Nat)
    (hflag : s.last_block_sent = false)
    (hex : s.current_wav_size ≤ s.sound_index)
    (hbit : status &&& NRFX_I2S_STATUS_NEXT_BUFFERS_NEEDED ≠ 0) :
    ∃ s1, data_handler AUDIO16 s p_released status = some (s1, none) ∧
      s1.m_buffer_tx = s.m_buffer_tx ∧
      s1.sound_index = s.sound_index ∧
      s1.buffer_index = s.buffer_index ∧
      s1.mp_block_to_fill = s.mp_block_to_fill ∧
      s1.current_wav_size = s.current_wav_size ∧
      s1.last_block_sent = true :=
  ⟨_, data_handler_last AUDIO16 s p_released status hbit hex hflag,
    rfl, rfl, rfl, rfl, rfl, rfl⟩

/-- Witness of C15: the globals as the C initialisers leave them. -/
theorem exhausted_notification_frame_witness :
    ∃ s1, data_handler [] State.initial (some 1) NRFX_I2S_STATUS_NEXT_BUFFERS_NEEDED
        = some (s1, none) ∧
      s1.m_buffer_tx = State.initial.m_buffer_tx ∧
      s1.sound_index = 44 ∧
      s1.buffer_index = 0 := by
  obtain ⟨s1, h, h1, h2, h3, _⟩ :=
    exhausted_notification_frame [] State.initial (some 1)
      NRFX_I2S_STATUS_NEXT_BUFFERS_NEEDED rfl (by decide) (by decide)
  exact ⟨s1, h, h1, h2, h3⟩

/-! ## The cursor along a session -/

theorem encoded_block_exhausted (AUDIO16 : List Byte) (limit c : Nat) (hex : limit ≤ c) :
    encoded_block AUDIO16 limit c = Block.zero := by
  apply Block.ext_read
  intro i hi
  rw [encoded_block_read _ _ _ _ hi, Block.zero_read, encoded_word, if_neg (by omega)]

theorem filter_guard_length (limit c : Nat) :
    ∀ n, ((List.range n).filter (fun i => decide (c + i < limit))).length
      = min n (limit - c) := by
  intro n
  induction n with
  | zero => simp
  | succ n ih =>
    rw [List.range_succ, List.filter_append, List.length_append, ih]
    by_cases h : c + n < limit
    · simp only [List.filter_cons, h, decide_True, if_true, List.filter_nil,
        List.length_singleton]
      omega
    · simp only [List.filter_cons, h, decide_False, List.filter_nil, List.length_nil]
      simp only [Bool.false_eq_true, if_false, List.length_nil]
      omega

theorem real_words_eq (limit c : Nat) :
    real_words limit c = min I2S_DATA_BLOCK_WORDS (limit - c) :=
  filter_guard_length limit c I2S_DATA_BLOCK_WORDS

theorem cursor_after_eq (limit c : Nat) :
    cursor_after limit c = c + real_words limit c := by
  rw [real_words_eq, cursor_after]

/-- What one notification does to the cursor and the buffers, and the words it
encodes. -/
theorem data_handler_cases (AUDIO16 : List Byte) (s s1 : State)
    (p_released : Option (Fin 2)) (status : Nat) (out : Option (Fin 2))
    (hsz : 2 * s.current_wav_size ≤ AUDIO16.length)
    (hlen : AUDIO16.length ≤ UINT32_MOD)
    (h : data_handler AUDIO16 s p_released status = some (s1, out)) :
    (s1.sound_index = s.sound_index ∧ s1.m_buffer_tx = s.m_buffer_tx ∧
      refill_words ⟨p_released, status⟩ (s1, out) = []) ∨
    (∃ b, p_released = some b ∧
      s1.sound_index = cursor_after s.current_wav_size s.sound_index ∧
      s1.m_buffer_tx = Function.update s.m_buffer_tx b
        (encoded_block AUDIO16 s.current_wav_size s.sound_index) ∧
      refill_words ⟨p_released, status⟩ (s1, out)
        = (encoded_block AUDIO16 s.current_wav_size s.sound_index).val) := by
  by_cases hbit : status &&& NRFX_I2S_STATUS_NEXT_BUFFERS_NEEDED = 0
  · rw [data_handler_ignored AUDIO16 s p_released status hbit] at h
    simp only [Option.some.injEq, Prod.mk.injEq] at h
    obtain ⟨rfl, rfl⟩ := h
    refine Or.inl ⟨rfl, rfl, ?_⟩
    cases p_released <;> rfl
  · by_cases hgo : s.current_wav_size ≤ s.sound_index ∧ s.last_block_sent = false
    · rw [data_handler_last AUDIO16 s p_released status hbit hgo.1 hgo.2] at h
      simp only [Option.some.injEq, Prod.mk.injEq] at h
      obtain ⟨rfl, rfl⟩ := h
      refine Or.inl ⟨rfl, rfl, ?_⟩
      cases p_released <;> rfl
    · cases p_released with
      | none =>
        rw [data_handler_null AUDIO16 s status hbit hgo] at h
        simp only [Option.some.injEq, Prod.mk.injEq] at h
        obtain ⟨rfl, rfl⟩ := h
        exact Or.inl ⟨rfl, rfl, rfl⟩
      | some b =>
        rw [data_handler_refill AUDIO16 s b status hbit hgo hsz hlen] at h
        simp only [Option.some.injEq, Prod.mk.injEq] at h
        obtain ⟨rfl, rfl⟩ := h
        refine Or.inr ⟨b, rfl, rfl, rfl, ?_⟩
        show (Function.update s.m_buffer_tx b _ b).val = _
        rw [Function.update_same]

/-- A property of the globals that every handler call preserves holds in every
state of a run. -/
theorem run_invariant (AUDIO16 : List Byte) (P : State → Prop)
    (hstep : ∀ s s1 p_released status out, P s →
      data_handler AUDIO16 s p_released status = some (s1, out) → P s1)
    (ns : List Notification) (s : State) (tr : List (State × Option (Fin 2)))
    (h : run_notifications AUDIO16 s ns = some tr) (h0 : P s) :
    ∀ k, k ≤ tr.length → P (state_before s tr k) := by
  intro k
  induction k with
  | zero => intro _; exact h0
  | succ k ih =>
    intro hk
    obtain ⟨n, r, _, _, hd, hs⟩ := run_notifications_step AUDIO16 ns s tr h k (by omega)
    obtain ⟨s1, out⟩ := r
    rw [hs]
    exact hstep _ s1 _ _ out (ih (by omega)) hd

/-- The state left by notification `k` is the state notification `k + 1` finds. -/
theorem state_before_succ (s : State) (tr : List (State × Option (Fin 2))) (k : Nat)
    (r : State × Option (Fin 2)) (hr : tr[k]? = some r) :
    state_before s tr (k + 1) = r.1 := by
  simp [state_before, hr]

theorem fin_two_cases (b : Fin 2) : b = 0 ∨ b = 1 := by
  revert b
  decide

/-- C14: for a source of exactly 44 bytes `play_wav` sets the limit to 0,
pre-fills both buffers with zero words only and leaves the cursor at 44; the
first next-buffer-needed notification, whatever buffer it releases, takes the
exhausted branch: it encodes nothing, hands off no buffer and only sets the
Completion Flag; and in every run of notifications after the initialisation
the cursor stays at 44 and both buffers stay all zero, so no real sample is
ever emitted. -/
theorem zero_sample_source (AUDIO16 : List Byte) (s : State) (data : List Byte)
    (p_released : Option (Fin 2)) (status : Nat) (ns : List Notification)
    (hA : AUDIO16.length = 44)
    (hbit : status &&& NRFX_I2S_STATUS_NEXT_BUFFERS_NEEDED ≠ 0) :
    ∃ s0 tr, play_wav_init AUDIO16 s data AUDIO16.length
        = some (s0, 0, I2S_DATA_BLOCK_WORDS) ∧
      s0.m_buffer_tx 0 = Block.zero ∧
      s0.m_buffer_tx 1 = Block.zero ∧
      s0.sound_index = 44 ∧
      s0.current_wav_size = 0 ∧
      s0.last_block_sent = false ∧
      data_handler AUDIO16 s0 p_released status
        = some ({ s0 with last_block_sent := true }, none) ∧
      run_notifications AUDIO16 s0 ns = some tr ∧
      ∀ k, k ≤ tr.length →
        (state_before s0 tr k).sound_index = 44 ∧
        ∀ b, (state_before s0 tr k).m_buffer_tx b = Block.zero := by
  have hw : wav_size_of AUDIO16.length = 0 := by rw [hA]; decide
  have hlen : AUDIO16.length ≤ UINT32_MOD := by rw [hA]; decide
  obtain ⟨s0, hinit, h0, h1, _, hc, hl, _, hf⟩ :=
    play_wav_init_state AUDIO16 s data AUDIO16.length (by rw [hw]; omega) hlen
  rw [hw] at h0 h1 hc hl
  have hca : cursor_after 0 44 = 44 := by decide
  rw [hca] at h1 hc
  rw [hca] at hc
  rw [encoded_block_exhausted _ _ _ (by omega)] at h0 h1
  obtain ⟨tr, hrun⟩ := run_notifications_total AUDIO16 hlen ns s0 (by rw [hl]; omega)
  have hinv := run_invariant AUDIO16
    (fun t => t.current_wav_size = 0 ∧ t.sound_index = 44 ∧ ∀ b, t.m_buffer_tx b = Block.zero)
    (by
      intro t t1 rel st out ⟨ht1, ht2, ht3⟩ hd
      have hcw := (data_handler_frame AUDIO16 t t1 rel st out hd).1
      rcases data_handler_cases AUDIO16 t t1 rel st out (by rw [ht1]; omega) hlen hd with
        ⟨hsi, htx, _⟩ | ⟨b, _, hsi, htx, _⟩
      · exact ⟨by rw [hcw, ht1], by rw [hsi, ht2], by rw [htx]; exact ht3⟩
      · refine ⟨by rw [hcw, ht1], by rw [hsi, ht1, ht2, hca], ?_⟩
        intro b1
        rw [htx, ht1, ht2, encoded_block_exhausted _ _ _ (by omega)]
        by_cases hb : b1 = b
        · rw [hb, Function.update_same]
        · rw [Function.update_noteq hb, ht3 b1])
    ns s0 tr hrun
    ⟨hl, hc, fun b => by rcases fin_two_cases b with hb | hb <;> rw [hb] <;> assumption⟩
  exact ⟨s0, tr, hinit, h0, h1, hc, hl, hf,
    data_handler_last AUDIO16 s0 p_released status hbit (by rw [hl]; omega) hf, hrun,
    fun k hk => (hinv k hk).2⟩

/-- Witness of C14 on the 44-byte test asset. -/
theorem zero_sample_source_witness :
    ∃ s0 tr, play_wav_init (ramp 44) State.initial (ramp 44) (ramp 44).length
        = some (s0, 0, I2S_DATA_BLOCK_WORDS) ∧
      s0.sound_index = 44 ∧
      data_handler (ramp 44) s0 (some 0) NRFX_I2S_STATUS_NEXT_BUFFERS_NEEDED
        = some ({ s0 with last_block_sent := true }, none) ∧
      run_notifications (ramp 44) s0 [needed 0, needed 1] = some tr := by
  obtain ⟨s0, tr, h0, _, _, h1, _, _, h2, h3, _⟩ :=
    zero_sample_source (ramp 44) State.initial (ramp 44) (some 0)
      NRFX_I2S_STATUS_NEXT_BUFFERS_NEEDED [needed 0, needed 1] (by rw [ramp_length])
      (by decide)
  exact ⟨s0, tr, h0, h1, h2, h3⟩

/-- The bounds on the cursor are preserved by every handler call. -/
theorem cursor_bounds_step (AUDIO16 : List Byte) (limit : Nat)
    (hsz : 2 * limit ≤ AUDIO16.length) (hlen : AUDIO16.length ≤ UINT32_MOD)
    (t t1 : State) (rel : Option (Fin 2)) (status : Nat) (out : Option (Fin 2))
    (hP : t.current_wav_size = limit ∧ 44 ≤ t.sound_index ∧
      t.sound_index ≤ max 44 t.current_wav_size)
    (hd : data_handler AUDIO16 t rel status = some (t1, out)) :
    t1.current_wav_size = limit ∧ 44 ≤ t1.sound_index ∧
      t1.sound_index ≤ max 44 t1.current_wav_size := by
  obtain ⟨ht1, ht2, ht3⟩ := hP
  have hcw := (data_handler_frame AUDIO16 t t1 rel status out hd).1
  rcases data_handler_cases AUDIO16 t t1 rel status out
      (by rw [ht1]; exact hsz) hlen hd with ⟨hsi, _, _⟩ | ⟨_, _, hsi, _, _⟩
  · exact ⟨by rw [hcw, ht1], by rw [hsi]; exact ht2, by rw [hsi, hcw]; exact ht3⟩
  · refine ⟨by rw [hcw, ht1], ?_, ?_⟩
    · rw [hsi]; unfold cursor_after; omega
    · rw [hsi, hcw]; unfold cursor_after; omega

/-- C16: `sound_index` never regresses.  One encoder call (on an asset that
holds `current_wav_size` whole samples) advances it by exactly the number of
slots that receive a real sample.  In a session on an asset of at least 44
bytes `play_wav` restarts from 44, so after its two pre-fills the cursor is 44
plus the real words of the two blocks; every notification (any status, any
released buffer) leaves a cursor that is at least the one it found, equal to it
when nothing is encoded and larger by the number of real words of the block
when the released buffer is refilled; and
`44 <= sound_index <= max 44 current_wav_size` holds in every state of the
run. -/
theorem cursor_never_regresses (AUDIO16 : List Byte) (s : State) (data : List Byte)
    (ns : List Notification) (st : State) (b : Fin 2)
    (h44 : 44 ≤ AUDIO16.length) (hlen : AUDIO16.length < UINT32_MOD)
    (hst : 2 * st.current_wav_size ≤ AUDIO16.length) :
    (∃ st1, prepare_tx_data AUDIO16 st b = some st1 ∧
      st.sound_index ≤ st1.sound_index ∧
      st1.sound_index = st.sound_index + real_words st.current_wav_size st.sound_index) ∧
    ∃ s0 tr, play_wav_init AUDIO16 s data AUDIO16.length
        = some (s0, 0, I2S_DATA_BLOCK_WORDS) ∧
      s0.sound_index = 44 + real_words s0.current_wav_size 44
        + real_words s0.current_wav_size (44 + real_words s0.current_wav_size 44) ∧
      run_notifications AUDIO16 s0 ns = some tr ∧
      (∀ k, k ≤ tr.length →
        44 ≤ (state_before s0 tr k).sound_index ∧
        (state_before s0 tr k).sound_index
          ≤ max 44 (state_before s0 tr k).current_wav_size) ∧
      (∀ k n r, ns[k]? = some n → tr[k]? = some r →
        (state_before s0 tr k).sound_index ≤ r.1.sound_index ∧
        ((refill_words n r = [] ∧
            r.1.sound_index = (state_before s0 tr k).sound_index) ∨
          (refill_words n r
              = (encoded_block AUDIO16 (state_before s0 tr k).current_wav_size
                  (state_before s0 tr k).sound_index).val ∧
            r.1.sound_index = (state_before s0 tr k).sound_index
              + real_words (state_before s0 tr k).current_wav_size
                  (state_before s0 tr k).sound_index))) := by
  have hlen1 : AUDIO16.length ≤ UINT32_MOD := Nat.le_of_lt hlen
  constructor
  · refine ⟨_, prepare_tx_data_eq AUDIO16 st b hst hlen1, ?_, ?_⟩
    · show st.sound_index ≤ cursor_after st.current_wav_size st.sound_index
      unfold cursor_after
      omega
    · exact cursor_after_eq _ _
  · have hw := wav_size_of_eq AUDIO16.length h44 hlen
    have hsz : 2 * wav_size_of AUDIO16.length ≤ AUDIO16.length := by rw [hw]; omega
    obtain ⟨s0, hinit, _, _, _, hc, hl, _, _⟩ :=
      play_wav_init_state AUDIO16 s data AUDIO16.length hsz hlen1
    obtain ⟨tr, hrun⟩ := run_notifications_total AUDIO16 hlen1 ns s0 (by rw [hl]; exact hsz)
    rw [← hl] at hc
    have hsz0 : 2 * s0.current_wav_size ≤ AUDIO16.length := by rw [hl]; exact hsz
    have hinv := run_invariant AUDIO16
      (fun t => t.current_wav_size = s0.current_wav_size ∧ 44 ≤ t.sound_index ∧
        t.sound_index ≤ max 44 t.current_wav_size)
      (fun t t1 rel status out hP hd =>
        cursor_bounds_step AUDIO16 s0.current_wav_size hsz0 hlen1 t t1 rel status out hP hd)
      ns s0 tr hrun
      ⟨rfl, by rw [hc]; unfold cursor_after; omega,
        by rw [hc]; unfold cursor_after; omega⟩
    refine ⟨s0, tr, hinit, ?_, hrun, fun k hk => (hinv k hk).2, ?_⟩
    · rw [hc, cursor_after_eq, cursor_after_eq]
    · intro k n r hn hr
      have hk : k < tr.length := (List.getElem?_eq_some_iff.mp hr).1
      obtain ⟨n1, r1, hn1, hr1, hd, _⟩ := run_notifications_step AUDIO16 ns s0 tr hrun k hk
      rw [hn] at hn1
      rw [hr] at hr1
      simp only [Option.some.injEq] at hn1 hr1
      subst hn1
      subst hr1
      obtain ⟨hcw, _, _⟩ := hinv k (by omega)
      obtain ⟨s1, out⟩ := r
      rcases data_handler_cases AUDIO16 _ s1 _ _ out
          (by rw [hcw, hl]; exact hsz) hlen1 hd with ⟨hsi, _, hrw⟩ | ⟨_, _, hsi, _, hrw⟩
      · exact ⟨by rw [hsi], Or.inl ⟨hrw, hsi⟩⟩
      · refine ⟨?_, Or.inr ⟨hrw, ?_⟩⟩
        · show _ ≤ s1.sound_index
          rw [hsi]; unfold cursor_after; omega
        · show s1.sound_index = _
          rw [hsi, cursor_after_eq]

/-- Witness of C16 on the 8444-byte test asset. -/
theorem cursor_never_regresses_witness :
    (∃ st1, prepare_tx_data (ramp 8444)
        { State.initial with current_wav_size := 50 } 1 = some st1 ∧
      44 ≤ st1.sound_index) ∧
    ∃ s0 tr, play_wav_init (ramp 8444) State.initial (ramp 8444) (ramp 8444).length
        = some (s0, 0, I2S_DATA_BLOCK_WORDS) ∧
      run_notifications (ramp 8444) s0 [needed 0, ⟨none, 3⟩, needed 1] = some tr := by
  obtain ⟨⟨st1, h1, h2, _⟩, s0, tr, h3, _, h4, _⟩ :=
    cursor_never_regresses (ramp 8444) State.initial (ramp 8444)
      [needed 0, ⟨none, 3⟩, needed 1] { State.initial with current_wav_size := 50 } 1
      (by rw [ramp_length]; decide) (by rw [ramp_length]; decide)
      (by rw [ramp_length]; decide)
  exact ⟨⟨st1, h1, h2⟩, s0, tr, h3, h4⟩

/-! ## The stream of encoded words -/

theorem encoded_block_getElem? (AUDIO16 : List Byte) (limit c i : Nat)
    (hi : i < I2S_DATA_BLOCK_WORDS) :
    (encoded_block AUDIO16 limit c).val[i]? = some (encoded_word AUDIO16 limit c i) := by
  simp [encoded_block, List.getElem?_map, List.getElem?_range hi]

/-- Slot `k - 2048` of the block that follows is what the first block would
hold at position `k`, had it been long enough. -/
theorem encoded_word_shift (AUDIO16 : List Byte) (limit c k : Nat)
    (hk : I2S_DATA_BLOCK_WORDS ≤ k) :
    encoded_word AUDIO16 limit (cursor_after limit c) (k - I2S_DATA_BLOCK_WORDS)
      = encoded_word AUDIO16 limit c k := by
  unfold encoded_word cursor_after
  by_cases h : c + I2S_DATA_BLOCK_WORDS ≤ limit
  · have h1 : c + min I2S_DATA_BLOCK_WORDS (limit - c) + (k - I2S_DATA_BLOCK_WORDS)
        = c + k := by omega
    rw [h1]
  · have h1 : ¬ (c + min I2S_DATA_BLOCK_WORDS (limit - c) + (k - I2S_DATA_BLOCK_WORDS)
        < limit) := by omega
    have h2 : ¬ (c + k < limit) := by omega
    rw [if_neg h1, if_neg h2]

/-- A block encoded at cursor `c`, followed by words that obey the formula from
the cursor the block leaves, obeys the formula from `c`. -/
theorem stream_block_append (AUDIO16 : List Byte) (limit c : Nat) (rest : List Nat)
    (hrest : ∀ k w, rest[k]? = some w →
      w = encoded_word AUDIO16 limit (cursor_after limit c) k) :
    ∀ k w, ((encoded_block AUDIO16 limit c).val ++ rest)[k]? = some w →
      w = encoded_word AUDIO16 limit c k := by
  intro k w hw
  have hlenb : (encoded_block AUDIO16 limit c).val.length = I2S_DATA_BLOCK_WORDS :=
    (encoded_block AUDIO16 limit c).property
  by_cases hk : k < I2S_DATA_BLOCK_WORDS
  · rw [List.getElem?_append_left (by rw [hlenb]; exact hk),
      encoded_block_getElem? _ _ _ _ hk] at hw
    simp only [Option.some.injEq] at hw
    exact hw.symm
  · rw [List.getElem?_append_right (by rw [hlenb]; omega), hlenb] at hw
    rw [hrest _ w hw, encoded_word_shift _ _ _ _ (by omega)]

/-- The words encoded by the refills of a run obey the formula from the cursor
of the start state. -/
theorem run_refill_stream (AUDIO16 : List Byte) (hlen : AUDIO16.length ≤ UINT32_MOD) :
    ∀ (ns : List Notification) (s : State) (tr : List (State × Option (Fin 2))),
      run_notifications AUDIO16 s ns = some tr →
      2 * s.current_wav_size ≤ AUDIO16.length →
      ∀ k w, (refill_stream ns tr)[k]? = some w →
        w = encoded_word AUDIO16 s.current_wav_size s.sound_index k := by
  intro ns
  induction ns with
  | nil =>
    intro s tr _ _ k w hw
    simp [refill_stream] at hw
  | cons n0 ns ih =>
    intro s tr h hsz k w hw
    simp only [run_notifications] at h
    cases hd : data_handler AUDIO16 s n0.p_released n0.status with
    | none => simp [hd] at h
    | some r0 =>
      obtain ⟨s1, out⟩ := r0
      simp only [hd] at h
      cases hr : run_notifications AUDIO16 s1 ns with
      | none => simp [hr] at h
      | some rest =>
        simp only [hr, Option.some.injEq] at h
        subst h
        have hcw := (data_handler_frame AUDIO16 s s1 _ _ out hd).1
        have ih1 := ih s1 rest hr (by rw [hcw]; exact hsz)
        rw [hcw] at ih1
        simp only [refill_stream] at hw
        rcases data_handler_cases AUDIO16 s s1 _ _ out hsz hlen hd with
          ⟨hsi, _, hrw⟩ | ⟨_, _, hsi, _, hrw⟩
        · rw [hrw, List.nil_append] at hw
          rw [hsi] at ih1
          exact ih1 k w hw
        · rw [hrw] at hw
          rw [hsi] at ih1
          exact stream_block_append AUDIO16 _ _ _ ih1 k w hw

/-- The cursor a run ends with exceeds the cursor it starts with by at most the
number of words its refills encode. -/
theorem run_cursor_le (AUDIO16 : List Byte) (hlen : AUDIO16.length ≤ UINT32_MOD) :
    ∀ (ns : List Notification) (s : State) (tr : List (State × Option (Fin 2))),
      run_notifications AUDIO16 s ns = some tr →
      2 * s.current_wav_size ≤ AUDIO16.length →
      (state_before s tr tr.length).sound_index
        ≤ s.sound_index + (refill_stream ns tr).length := by
  intro ns
  induction ns with
  | nil =>
    intro s tr h _
    simp only [run_notifications, Option.some.injEq] at h
    subst h
    simp [state_before, refill_stream]
  | cons n0 ns ih =>
    intro s tr h hsz
    simp only [run_notifications] at h
    cases hd : data_handler AUDIO16 s n0.p_released n0.status with
    | none => simp [hd] at h
    | some r0 =>
      obtain ⟨s1, out⟩ := r0
      simp only [hd] at h
      cases hr : run_notifications AUDIO16 s1 ns with
      | none => simp [hr] at h
      | some rest =>
        simp only [hr, Option.some.injEq] at h
        subst h
        have hcw := (data_handler_frame AUDIO16 s s1 _ _ out hd).1
        have ih1 := ih s1 rest hr (by rw [hcw]; exact hsz)
        rw [List.length_cons, state_before_cons s (s1, out) rest rest.length (Nat.le_refl _)]
        simp only [refill_stream, List.length_append]
        rcases data_handler_cases AUDIO16 s s1 _ _ out hsz hlen hd with
          ⟨hsi, _, hrw⟩ | ⟨_, _, hsi, _, hrw⟩
        · rw [hrw, List.length_nil]
          rw [hsi] at ih1
          omega
        · have hb : (encoded_block AUDIO16 s.current_wav_size s.sound_index).val.length
              = I2S_DATA_BLOCK_WORDS := (encoded_block AUDIO16 _ _).property
          rw [hrw, hb]
          rw [hsi] at ih1
          unfold cursor_after at ih1
          omega

/-- Two assets that agree on the byte offsets `88 .. 2 * limit - 1` give the
same encoded block from every cursor at or above 44. -/
theorem encoded_block_congr (A1 A2 : List Byte) (limit c : Nat) (hc : 44 ≤ c)
    (hagree : ∀ o, 88 ≤ o → o < 2 * limit → A2.getD o 0 = A1.getD o 0) :
    encoded_block A2 limit c = encoded_block A1 limit c := by
  apply Block.ext_read
  intro i hi
  rw [encoded_block_read _ _ _ _ hi, encoded_block_read _ _ _ _ hi]
  unfold encoded_word
  by_cases h : c + i < limit
  · rw [if_pos h, if_pos h, sample16, sample16,
      hagree (2 * (c + i) + 1) (by omega) (by omega),
      hagree (2 * (c + i)) (by omega) (by omega)]
  · rw [if_neg h, if_neg h]

/-- The handler gives the same result on two assets that give the same encoded
block at the current cursor. -/
theorem data_handler_congr (A1 A2 : List Byte) (s : State)
    (p_released : Option (Fin 2)) (status : Nat)
    (hsz1 : 2 * s.current_wav_size ≤ A1.length) (hlen1 : A1.length ≤ UINT32_MOD)
    (hsz2 : 2 * s.current_wav_size ≤ A2.length) (hlen2 : A2.length ≤ UINT32_MOD)
    (hblk : encoded_block A2 s.current_wav_size s.sound_index
      = encoded_block A1 s.current_wav_size s.sound_index) :
    data_handler A2 s p_released status = data_handler A1 s p_released status := by
  by_cases hbit : status &&& NRFX_I2S_STATUS_NEXT_BUFFERS_NEEDED = 0
  · rw [data_handler_ignored A2 s p_released status hbit,
      data_handler_ignored A1 s p_released status hbit]
  · by_cases hgo : s.current_wav_size ≤ s.sound_index ∧ s.last_block_sent = false
    · rw [data_handler_last A2 s p_released status hbit hgo.1 hgo.2,
        data_handler_last A1 s p_released status hbit hgo.1 hgo.2]
    · cases p_released with
      | none =>
        rw [data_handler_null A2 s status hbit hgo, data_handler_null A1 s status hbit hgo]
      | some b =>
        rw [data_handler_refill A2 s b status hbit hgo hsz2 hlen2,
          data_handler_refill A1 s b status hbit hgo hsz1 hlen1, hblk]

/-- A run gives the same result on two assets that agree on the byte offsets
`88 .. 2 * limit - 1`, from every state whose cursor is at or above 44. -/
theorem run_notifications_congr (A1 A2 : List Byte) (limit : Nat)
    (hsz1 : 2 * limit ≤ A1.length) (hlen1 : A1.length ≤ UINT32_MOD)
    (hsz2 : 2 * limit ≤ A2.length) (hlen2 : A2.length ≤ UINT32_MOD)
    (hagree : ∀ o, 88 ≤ o → o < 2 * limit → A2.getD o 0 = A1.getD o 0) :
    ∀ (ns : List Notification) (s : State), s.current_wav_size = limit →
      44 ≤ s.sound_index →
      run_notifications A2 s ns = run_notifications A1 s ns := by
  intro ns
  induction ns with
  | nil => intro s _ _; rfl
  | cons n0 ns ih =>
    intro s hl hc
    have hd := data_handler_congr A1 A2 s n0.p_released n0.status
      (by rw [hl]; exact hsz1) hlen1 (by rw [hl]; exact hsz2) hlen2
      (by rw [hl]; exact encoded_block_congr A1 A2 limit s.sound_index hc hagree)
    simp only [run_notifications, hd]
    cases hr : data_handler A1 s n0.p_released n0.status with
    | none => rfl
    | some r0 =>
      obtain ⟨s1, out⟩ := r0
      have hcw := (data_handler_frame A1 s s1 _ _ out hr).1
      have hsi : 44 ≤ s1.sound_index := by
        rcases data_handler_cases A1 s s1 _ _ out (by rw [hl]; exact hsz1) hlen1 hr with
          ⟨h1, _, _⟩ | ⟨_, _, h1, _, _⟩
        · rw [h1]; exact hc
        · rw [h1]; unfold cursor_after; omega
      simp only [ih s1 (by rw [hcw, hl]) hsi]

/-- C17: for every source of `L >= 44` bytes with limit `l = (L - 44) / 2`, and
every run of notifications after `play_wav` (those of the claim included: bit
set, non-null released buffer), word `k` of the stream of encoded words (the
two pre-fills, then the refills, in order) is the 16-bit sample at asset bytes
`88 + 2k` and `89 + 2k` when `k < l - 44` and zero otherwise; those bytes lie
inside `88 .. 2l - 1`; when the run ends with the Completion Flag set the
stream has at least `l - 44` words, so exactly `l - 44` real samples have been
emitted; and the whole session (states, handoffs and words) is the same for
any other asset of the same length that agrees on bytes `88 .. 2l - 1`: bytes
`44 .. 87` and the bytes from `2l` on are never read. -/
theorem encoded_stream_from_sample_44 (AUDIO16 : List Byte) (s : State)
    (data : List Byte) (ns : List Notification)
    (h44 : 44 ≤ AUDIO16.length) (hlen : AUDIO16.length < UINT32_MOD) :
    ∃ s0 tr,
      session AUDIO16 s data AUDIO16.length ns = some (s0, tr, encoded_stream s0 ns tr) ∧
      s0.current_wav_size = (AUDIO16.length - 44) / 2 ∧
      (∀ k w, (encoded_stream s0 ns tr)[k]? = some w →
        w = if k < (AUDIO16.length - 44) / 2 - 44
          then (AUDIO16.getD (89 + 2 * k) 0).val * 256 + (AUDIO16.getD (88 + 2 * k) 0).val
          else 0) ∧
      (∀ k, k < (AUDIO16.length - 44) / 2 - 44 →
        89 + 2 * k < 2 * ((AUDIO16.length - 44) / 2)) ∧
      ((state_before s0 tr tr.length).last_block_sent = true →
        (AUDIO16.length - 44) / 2 - 44 ≤ (encoded_stream s0 ns tr).length) ∧
      (∀ A2 : List Byte, A2.length = AUDIO16.length →
        (∀ o, 88 ≤ o → o < 2 * ((AUDIO16.length - 44) / 2) →
          A2.getD o 0 = AUDIO16.getD o 0) →
        session A2 s data A2.length ns = session AUDIO16 s data AUDIO16.length ns) := by
  have hlen1 : AUDIO16.length ≤ UINT32_MOD := Nat.le_of_lt hlen
  have hw := wav_size_of_eq AUDIO16.length h44 hlen
  have hsz : 2 * wav_size_of AUDIO16.length ≤ AUDIO16.length := by rw [hw]; omega
  obtain ⟨s0, hinit, h0, h1, _, hc, hl, _, hf⟩ :=
    play_wav_init_state AUDIO16 s data AUDIO16.length hsz hlen1
  rw [← hl] at hc h0 h1
  have hsz0 : 2 * s0.current_wav_size ≤ AUDIO16.length := by rw [hl]; exact hsz
  have hl2 : s0.current_wav_size = (AUDIO16.length - 44) / 2 := by rw [hl, hw]
  obtain ⟨tr, hrun⟩ := run_notifications_total AUDIO16 hlen1 ns s0 hsz0
  have hsess : session AUDIO16 s data AUDIO16.length ns
      = some (s0, tr, encoded_stream s0 ns tr) := by
    unfold session
    rw [hinit, Option.some_bind, hrun, Option.some_bind]
  -- the formula, from cursor 44
  have hform : ∀ k w, (encoded_stream s0 ns tr)[k]? = some w →
      w = encoded_word AUDIO16 s0.current_wav_size 44 k := by
    have hr := run_refill_stream AUDIO16 hlen1 ns s0 tr hrun hsz0
    rw [hc] at hr
    have hr1 := stream_block_append AUDIO16 s0.current_wav_size
      (cursor_after s0.current_wav_size 44) _ hr
    have hr0 := stream_block_append AUDIO16 s0.current_wav_size 44 _ hr1
    intro k w hkw
    unfold encoded_stream at hkw
    rw [h0, h1] at hkw
    exact hr0 k w hkw
  refine ⟨s0, tr, hsess, hl2, ?_, ?_, ?_, ?_⟩
  · intro k w hkw
    rw [hform k w hkw, encoded_word, sample16, hl2]
    by_cases hk : k < (AUDIO16.length - 44) / 2 - 44
    · rw [if_pos hk, if_pos (by omega), show 2 * (44 + k) + 1 = 89 + 2 * k by omega,
        show 2 * (44 + k) = 88 + 2 * k by omega]
    · rw [if_neg hk, if_neg (by omega)]
  · intro k hk
    omega
  · intro hdone
    have hex : s0.current_wav_size
        ≤ (state_before s0 tr tr.length).sound_index := by
      have hinv := run_invariant AUDIO16
        (fun t => t.current_wav_size = s0.current_wav_size ∧
          (t.last_block_sent = true → t.current_wav_size ≤ t.sound_index))
        (by
          intro t t1 rel status out ⟨ht1, ht2⟩ hd
          have hcw := (data_handler_frame AUDIO16 t t1 rel status out hd).1
          have hfl := (data_handler_flag AUDIO16 t t1 rel status out hd).2
          have hmono : t.sound_index ≤ t1.sound_index := by
            rcases data_handler_cases AUDIO16 t t1 rel status out
                (by rw [ht1]; exact hsz0) hlen1 hd with ⟨hsi, _, _⟩ | ⟨_, _, hsi, _, _⟩
            · rw [hsi]
            · rw [hsi]; unfold cursor_after; omega
          refine ⟨by rw [hcw, ht1], ?_⟩
          intro ht
          rw [hcw]
          rcases hfl.mp ht with hb | ⟨_, hex⟩
          · exact Nat.le_trans (ht2 hb) hmono
          · exact Nat.le_trans hex hmono)
        ns s0 tr hrun
        ⟨rfl, fun hb => by rw [hf] at hb; exact absurd hb (by decide)⟩
      obtain ⟨hi1, hi2⟩ := hinv tr.length (Nat.le_refl _)
      rw [← hi1]
      exact hi2 hdone
    have hle := run_cursor_le AUDIO16 hlen1 ns s0 tr hrun hsz0
    have hb0 : (s0.m_buffer_tx 0).val.length = I2S_DATA_BLOCK_WORDS :=
      (s0.m_buffer_tx 0).property
    have hb1 : (s0.m_buffer_tx 1).val.length = I2S_DATA_BLOCK_WORDS :=
      (s0.m_buffer_tx 1).property
    unfold encoded_stream
    rw [List.length_append, List.length_append, hb0, hb1, ← hl2]
    rw [hc] at hle
    unfold cursor_after at hle
    omega
  · intro A2 hA2 hagree
    have hsz2 : 2 * wav_size_of AUDIO16.length ≤ A2.length := by rw [hA2]; exact hsz
    have hlen2 : A2.length ≤ UINT32_MOD := by rw [hA2]; exact hlen1
    rw [← hw] at hagree
    have hinit2 := play_wav_init_eq A2 s data AUDIO16.length hsz2 hlen2
    rw [encoded_block_congr AUDIO16 A2 _ 44 (Nat.le_refl _) hagree,
      encoded_block_congr AUDIO16 A2 _ (cursor_after (wav_size_of AUDIO16.length) 44)
        (by unfold cursor_after; exact Nat.le_add_right _ _) hagree,
      ← play_wav_init_eq AUDIO16 s data AUDIO16.length hsz hlen1] at hinit2
    have hrun2 := run_notifications_congr AUDIO16 A2 (wav_size_of AUDIO16.length)
      hsz hlen1 hsz2 hlen2 hagree ns s0 hl
      (by rw [hc]; unfold cursor_after; omega)
    unfold session
    rw [hA2, hinit2, hinit, Option.some_bind, Option.some_bind, hrun2]

/-- Witness of C17 on the 8444-byte test asset. -/
theorem encoded_stream_from_sample_44_witness :
    ∃ s0 tr,
      session (ramp 8444) State.initial (ramp 8444) (ramp 8444).length
          [needed 0, needed 1]
        = some (s0, tr, encoded_stream s0 [needed 0, needed 1] tr) ∧
      s0.current_wav_size = ((ramp 8444).length - 44) / 2 := by
  obtain ⟨s0, tr, h0, h1, _⟩ :=
    encoded_stream_from_sample_44 (ramp 8444) State.initial (ramp 8444)
      [needed 0, needed 1] (by rw [ramp_length]; decide) (by rw [ramp_length]; decide)
  exact ⟨s0, tr, h0, h1⟩

/-! ## Completion, short inputs and the data argument -/

/-- C18: for every asset of at least 44 bytes (limit `l = (L - 44) / 2`) and
every sequence of notifications after `play_wav` that all carry the
next-buffers-needed bit and release a non-null buffer, let
`r = ceil (max 0 (l - 44 - 2 * 2048) / 2048)`.  If the sequence has more than
`r` notifications, then each of the first `r` hands a buffer over and leaves
the Completion Flag false, and notification number `r + 1` hands off nothing
and sets the flag: the session completes after `r + 1` notifications. -/
theorem completion_notification_number (AUDIO16 : List Byte) (s : State)
    (data : List Byte) (ns : List Notification)
    (h44 : 44 ≤ AUDIO16.length) (hlen : AUDIO16.length < UINT32_MOD)
    (hns : ∀ n ∈ ns, n.status &&& NRFX_I2S_STATUS_NEXT_BUFFERS_NEEDED ≠ 0 ∧
      n.p_released ≠ none)
    (hlong : ((AUDIO16.length - 44) / 2 - 44 - 2 * 2048 + 2047) / 2048 < ns.length) :
    ∃ s0 tr, play_wav_init AUDIO16 s data AUDIO16.length
        = some (s0, 0, I2S_DATA_BLOCK_WORDS) ∧
      s0.last_block_sent = false ∧
      run_notifications AUDIO16 s0 ns = some tr ∧
      (∀ j rj, j < ((AUDIO16.length - 44) / 2 - 44 - 2 * 2048 + 2047) / 2048 →
        tr[j]? = some rj → rj.2 ≠ none ∧ rj.1.last_block_sent = false) ∧
      ∃ rr, tr[((AUDIO16.length - 44) / 2 - 44 - 2 * 2048 + 2047) / 2048]? = some rr ∧
        rr.2 = none ∧ rr.1.last_block_sent = true := by
  have hlen1 : AUDIO16.length ≤ UINT32_MOD := Nat.le_of_lt hlen
  have hw := wav_size_of_eq AUDIO16.length h44 hlen
  have hsz : 2 * wav_size_of AUDIO16.length ≤ AUDIO16.length := by rw [hw]; omega
  obtain ⟨s0, hinit, _, _, _, hc, hl, _, hf⟩ :=
    play_wav_init_state AUDIO16 s data AUDIO16.length hsz hlen1
  rw [← hl] at hc
  have hsz0 : 2 * s0.current_wav_size ≤ AUDIO16.length := by rw [hl]; exact hsz
  have hl2 : s0.current_wav_size = (AUDIO16.length - 44) / 2 := by rw [hl, hw]
  rw [← hl2] at hlong ⊢
  obtain ⟨tr, hrun⟩ := run_notifications_total AUDIO16 hlen1 ns s0 hsz0
  have htl : tr.length = ns.length := (run_notifications_chain AUDIO16 ns s0 tr hrun).1
  have hbits : ∀ n ∈ ns, n.status &&& NRFX_I2S_STATUS_NEXT_BUFFERS_NEEDED ≠ 0 :=
    fun n hn => (hns n hn).1
  have hc0 : s0.sound_index = 44 + min (2 * 2048) (s0.current_wav_size - 44) := by
    rw [hc]
    unfold cursor_after I2S_DATA_BLOCK_WORDS
    omega
  -- the cursor while data remains
  have key : ∀ k, k ≤ tr.length →
      k ≤ (s0.current_wav_size - 44 - 2 * 2048 + 2047) / 2048 →
      (state_before s0 tr k).sound_index
          = 44 + min ((2 + k) * 2048) (s0.current_wav_size - 44) ∧
        (state_before s0 tr k).last_block_sent = false := by
    intro k
    induction k with
    | zero =>
      intro _ _
      exact ⟨by rw [show state_before s0 tr 0 = s0 from rfl, hc0], hf⟩
    | succ k ih =>
      intro hk hkr
      obtain ⟨hck, hfk⟩ := ih (by omega) (by omega)
      have hlk := run_notifications_limit AUDIO16 ns s0 tr hrun k (by omega)
      obtain ⟨n, r, hn, _, hd, hs⟩ :=
        run_notifications_step AUDIO16 ns s0 tr hrun k (by omega)
      obtain ⟨hbit, hnn⟩ := hns n (List.getElem?_mem hn)
      obtain ⟨b, hb⟩ := Option.ne_none_iff_exists'.mp hnn
      have hlt : (state_before s0 tr k).sound_index
          < (state_before s0 tr k).current_wav_size := by
        rw [hck, hlk]; omega
      rw [hb, data_handler_refill AUDIO16 _ b n.status hbit (by omega)
        (by rw [hlk]; exact hsz0) hlen1] at hd
      simp only [Option.some.injEq] at hd
      rw [hs, ← hd]
      refine ⟨?_, hfk⟩
      show cursor_after (state_before s0 tr k).current_wav_size
        (state_before s0 tr k).sound_index = _
      rw [hck, hlk]
      unfold cursor_after I2S_DATA_BLOCK_WORDS
      omega
  have hstream : ∀ j, j < (s0.current_wav_size - 44 - 2 * 2048 + 2047) / 2048 →
      (state_before s0 tr j).sound_index < (state_before s0 tr j).current_wav_size := by
    intro j hj
    rw [(key j (by omega) (by omega)).1,
      run_notifications_limit AUDIO16 ns s0 tr hrun j (by omega)]
    omega
  obtain ⟨_, hprev⟩ := run_while_streaming AUDIO16 ns s0 tr hrun hf hbits
    ((s0.current_wav_size - 44 - 2 * 2048 + 2047) / 2048) (by omega) hstream
  refine ⟨s0, tr, hinit, hf, hrun, hprev, ?_⟩
  obtain ⟨hcr, hfr⟩ := key ((s0.current_wav_size - 44 - 2 * 2048 + 2047) / 2048)
    (by omega) (Nat.le_refl _)
  have hlr := run_notifications_limit AUDIO16 ns s0 tr hrun
    ((s0.current_wav_size - 44 - 2 * 2048 + 2047) / 2048) (by omega)
  obtain ⟨n, r, hn, hr, hd, _⟩ := run_notifications_step AUDIO16 ns s0 tr hrun
    ((s0.current_wav_size - 44 - 2 * 2048 + 2047) / 2048) (by omega)
  obtain ⟨hbit, _⟩ := hns n (List.getElem?_mem hn)
  rw [data_handler_last AUDIO16 _ n.p_released n.status hbit
    (by rw [hcr, hlr]; omega) hfr] at hd
  simp only [Option.some.injEq] at hd
  exact ⟨r, hr, by rw [← hd], by rw [← hd]⟩

/-- Witness of C18 on the 8444-byte test asset: limit 4200, `r = 1`. -/
theorem completion_notification_number_witness :
    ∃ s0 tr, play_wav_init (ramp 8444) State.initial (ramp 8444) (ramp 8444).length
        = some (s0, 0, I2S_DATA_BLOCK_WORDS) ∧
      run_notifications (ramp 8444) s0 [needed 0, needed 1, needed 0] = some tr ∧
      ∃ rr, tr[(((ramp 8444).length - 44) / 2 - 44 - 2 * 2048 + 2047) / 2048]? = some rr ∧
        rr.2 = none ∧ rr.1.last_block_sent = true := by
  obtain ⟨s0, tr, h0, _, h1, _, h2⟩ :=
    completion_notification_number (ramp 8444) State.initial (ramp 8444)
      [needed 0, needed 1, needed 0] (by rw [ramp_length]; decide)
      (by rw [ramp_length]; decide) (by decide) (by rw [ramp_length]; decide)
  exact ⟨s0, tr, h0, h1, h2⟩

/-- An encoder loop whose guard holds and whose first read is out of range
fails. -/
theorem prepare_tx_loop_fail (AUDIO16 : List Byte) (limit n i : Nat) (p_block : Block)
    (c : Nat) (hc : c < limit) (hs : sample_l AUDIO16 c = none) :
    prepare_tx_loop AUDIO16 limit (n + 1) i p_block c = none := by
  simp only [prepare_tx_loop, if_pos hc, hs]

theorem prepare_tx_data_fail (AUDIO16 : List Byte) (s : State) (b : Fin 2)
    (hc : s.sound_index < s.current_wav_size)
    (hs : sample_l AUDIO16 s.sound_index = none) :
    prepare_tx_data AUDIO16 s b = none := by
  have hN : I2S_DATA_BLOCK_WORDS = 2047 + 1 := rfl
  unfold prepare_tx_data
  rw [hN, prepare_tx_loop_fail AUDIO16 _ 2047 0 _ _ hc hs]

/-- C19: for every `wav_length < 44` the limit computed by `play_wav` is
`(2^32 + wav_length - 44) / 2`, at least `2^31 - 22`; the guard
`sound_index < limit` holds at cursor 44, the first encoder iteration indexes
the asset at offsets 89 and 88, which lie past the end of a source of
`wav_length` bytes, so the read is out of range and the initialisation has no
defined result. -/
theorem short_input_limit_wraps (AUDIO16 : List Byte) (s : State) (data : List Byte)
    (wav_length : Nat) (hshort : wav_length < 44) (hA : AUDIO16.length = wav_length) :
    wav_size_of wav_length = (2 ^ 32 + wav_length - 44) / 2 ∧
    2 ^ 31 - 22 ≤ wav_size_of wav_length ∧
    44 < wav_size_of wav_length ∧
    (44 * 2 + 1) % UINT32_MOD = 89 ∧
    (44 * 2 + 0) % UINT32_MOD = 88 ∧
    AUDIO16.length ≤ 88 ∧
    sample_l AUDIO16 44 = none ∧
    play_wav_init AUDIO16 s data wav_length = none := by
  have hw : wav_size_of wav_length = (2 ^ 32 + wav_length - 44) / 2 := by
    unfold wav_size_of UINT32_MOD
    omega
  have h89 : (44 * 2 + 1) % UINT32_MOD = 89 := by decide
  have h88 : (44 * 2 + 0) % UINT32_MOD = 88 := by decide
  have hs : sample_l AUDIO16 44 = none := by
    have hnone : AUDIO16[89]? = none := by
      rw [List.getElem?_eq_none_iff]; omega
    unfold sample_l
    rw [h89, h88, hnone]
  have hgt : 44 < wav_size_of wav_length := by rw [hw]; omega
  refine ⟨hw, by rw [hw]; omega, hgt, h89, h88, by omega, hs, ?_⟩
  unfold play_wav_init
  rw [prepare_tx_data_fail AUDIO16 _ 0 hgt hs]
  rfl

/-- Witness of C19: `wav_length = 10` on the 10-byte test asset. -/
theorem short_input_limit_wraps_witness :
    wav_size_of 10 = (2 ^ 32 + 10 - 44) / 2 ∧
    44 < wav_size_of 10 ∧
    sample_l (ramp 10) 44 = none ∧
    play_wav_init (ramp 10) State.initial (ramp 10) 10 = none := by
  obtain ⟨h0, _, h1, _, _, _, h2, h3⟩ :=
    short_input_limit_wraps (ramp 10) State.initial (ramp 10) 10 (by decide)
      (by rw [ramp_length])
  exact ⟨h0, h1, h2, h3⟩

/-- C20: the `data` argument of `play_wav` has no influence: for the same
`wav_length`, two calls with different `data` give the same result of the
initialisation and, for every run of notifications, the same session (state
after initialisation, states and handoffs of the run, and stream of encoded
words); the samples come from `AUDIO16` only. -/
theorem data_argument_ignored (AUDIO16 : List Byte) (s : State)
    (data1 data2 : List Byte) (wav_length : Nat) (ns : List Notification) :
    play_wav_init AUDIO16 s data1 wav_length = play_wav_init AUDIO16 s data2 wav_length ∧
    session AUDIO16 s data1 wav_length ns = session AUDIO16 s data2 wav_length ns := by
  constructor
  · unfold play_wav_init
    rfl
  · unfold session play_wav_init
    rfl

end WavPlayer
